import Mathlib

/-!
Verification development for the tokuly RTMP ingest server.

Shallow embedding of the pure/algorithmic core of the Go sources:
admission policy evaluation (`pkg/policy`), the HLS playlist manager
(`pkg/hls/playlist.go`), the packager's timestamp ingest and
partial-segment assignment (`pkg/packager/packager.go`), the archive
recorder's session rebasing (`pkg/archive/recorder.go`), the AVC decoder
configuration parser (`pkg/util/avc.go`), the stream key/name sanitizers
(`pkg/rtmp/handler.go`) and the admission authorization control flow.

Go `float64` values that only ever flow through arithmetic-free paths or
comparisons (durations in seconds, GOP lengths) are modelled as `ℚ`;
Go `int64`/`int` as `ℤ` (truncated division `Int.tdiv` matches Go's `/`),
`uint64` sequence numbers as `ℕ`; byte slices as `List ℕ`.
-/

namespace Policy

/-- Decision type, from pkg/policy (DecisionAccept | DecisionReject |
DecisionDegraded). -/
inductive Decision
| accept
| reject
| degraded
deriving DecidableEq, Repr

/-- Result, from pkg/policy: Decision, Reason, Message, StreamName,
AllowRewind (a nullable bool pointer, modelled as `Option Bool`). -/
structure PolicyResult where
  decision : Decision
  reason : String
  message : String
  streamName : String
  allowRewind : Option Bool
deriving DecidableEq, Repr

/-- The accept result with all other fields zero, as Go's
`Result{Decision: DecisionAccept}`. -/
def acceptResult : PolicyResult :=
  { decision := .accept, reason := "", message := "", streamName := "", allowRewind := none }

def rejectWith (reason msg : String) : PolicyResult :=
  { decision := .reject, reason := reason, message := msg, streamName := "", allowRewind := none }

/-- Policy evaluation configuration, from pkg/policy `Config` (the fields
`Evaluate` reads). -/
structure Config where
  maxWidth : Int
  maxHeight : Int
  maxGOPSeconds : ℚ
  allowNoAudio : Bool
  onGOPTooLong : String
  rejectIfVideoNotH264 : Bool
  rejectIfAudioNotAAC : Bool
deriving DecidableEq, Repr

/-- The fields of pkg/inspect `Result` that `Evaluate` reads. -/
structure InspectResult where
  videoCodec : String
  audioCodec : String
  width : Int
  height : Int
  gopSeconds : ℚ
  keyframeReceived : Bool
deriving DecidableEq, Repr

/-- `HTTPPolicy.Evaluate` from pkg/policy: the six checks in source order
(early-return chain flattened into an if-chain; the source's nested
positivity guards around the resolution and GOP comparisons become
conjunctions), first firing check wins, otherwise accept. -/
def evaluate (cfg : Config) (r : InspectResult) : PolicyResult :=
  if cfg.rejectIfVideoNotH264 ∧ r.videoCodec ≠ "H264" then
    rejectWith "CODEC_UNSUPPORTED" "video codec not supported"
  else if (r.width > 0 ∧ r.height > 0) ∧ (r.width > cfg.maxWidth ∨ r.height > cfg.maxHeight) then
    rejectWith "RESOLUTION_TOO_LARGE" "resolution too large"
  else if ¬ r.keyframeReceived then
    rejectWith "NO_KEYFRAME_TIMEOUT" "first keyframe timeout"
  else if r.audioCodec = "" ∧ ¬ cfg.allowNoAudio then
    rejectWith "AUDIO_UNSUPPORTED" "audio required"
  else if cfg.rejectIfAudioNotAAC ∧ r.audioCodec ≠ "" ∧ r.audioCodec ≠ "AAC" then
    rejectWith "AUDIO_UNSUPPORTED" "audio codec not supported"
  else if (cfg.maxGOPSeconds > 0 ∧ r.gopSeconds > 0) ∧ r.gopSeconds > cfg.maxGOPSeconds then
    if cfg.onGOPTooLong = "reject" then
      rejectWith "GOP_TOO_LONG" "gop too long"
    else
      { decision := .degraded, reason := "GOP_TOO_LONG", message := "gop too long",
        streamName := "", allowRewind := none }
  else acceptResult

/-- The evaluation order exactly as claim C1 words it (no positivity
guards on the resolution or GOP checks). Written from the claim text, to
be compared against `evaluate`. -/
def claimEvaluate (cfg : Config) (r : InspectResult) : PolicyResult :=
  if cfg.rejectIfVideoNotH264 ∧ r.videoCodec ≠ "H264" then
    rejectWith "CODEC_UNSUPPORTED" "video codec not supported"
  else if r.width > cfg.maxWidth ∨ r.height > cfg.maxHeight then
    rejectWith "RESOLUTION_TOO_LARGE" "resolution too large"
  else if ¬ r.keyframeReceived then
    rejectWith "NO_KEYFRAME_TIMEOUT" "first keyframe timeout"
  else if r.audioCodec = "" ∧ ¬ cfg.allowNoAudio then
    rejectWith "AUDIO_UNSUPPORTED" "audio required"
  else if cfg.rejectIfAudioNotAAC ∧ r.audioCodec ≠ "" ∧ r.audioCodec ≠ "AAC" then
    rejectWith "AUDIO_UNSUPPORTED" "audio codec not supported"
  else if r.gopSeconds > cfg.maxGOPSeconds then
    if cfg.onGOPTooLong = "reject" then
      rejectWith "GOP_TOO_LONG" "gop too long"
    else
      { decision := .degraded, reason := "GOP_TOO_LONG", message := "gop too long",
        streamName := "", allowRewind := none }
  else acceptResult

/-- The amended evaluation order: as the claim, except that the
resolution check fires only when both width and height are positive, and
the GOP check fires only when the configured cap is positive. -/
def amendedEvaluate (cfg : Config) (r : InspectResult) : PolicyResult :=
  if cfg.rejectIfVideoNotH264 ∧ r.videoCodec ≠ "H264" then
    rejectWith "CODEC_UNSUPPORTED" "video codec not supported"
  else if r.width > 0 ∧ r.height > 0 ∧ (r.width > cfg.maxWidth ∨ r.height > cfg.maxHeight) then
    rejectWith "RESOLUTION_TOO_LARGE" "resolution too large"
  else if ¬ r.keyframeReceived then
    rejectWith "NO_KEYFRAME_TIMEOUT" "first keyframe timeout"
  else if r.audioCodec = "" ∧ ¬ cfg.allowNoAudio then
    rejectWith "AUDIO_UNSUPPORTED" "audio required"
  else if cfg.rejectIfAudioNotAAC ∧ r.audioCodec ≠ "" ∧ r.audioCodec ≠ "AAC" then
    rejectWith "AUDIO_UNSUPPORTED" "audio codec not supported"
  else if cfg.maxGOPSeconds > 0 ∧ r.gopSeconds > cfg.maxGOPSeconds then
    if cfg.onGOPTooLong = "reject" then
      rejectWith "GOP_TOO_LONG" "gop too long"
    else
      { decision := .degraded, reason := "GOP_TOO_LONG", message := "gop too long",
        streamName := "", allowRewind := none }
  else acceptResult

/-- Concrete policy configuration used in counterexamples. -/
def cexCfg : Config :=
  { maxWidth := 1920, maxHeight := 1080, maxGOPSeconds := 0, allowNoAudio := false,
    onGOPTooLong := "degrade", rejectIfVideoNotH264 := false, rejectIfAudioNotAAC := true }

/-- Concrete inspector result with zero width but over-cap height: the
source skips the resolution check (width not positive) and accepts. -/
def cexResult : InspectResult :=
  { videoCodec := "H264", audioCodec := "AAC", width := 0, height := 2160,
    gopSeconds := 0, keyframeReceived := true }

end Policy

namespace Hls

/-- Part, from pkg/hls: URI and duration in seconds. -/
structure Part where
  uri : String
  duration : ℚ
deriving DecidableEq, Repr

/-- Segment, from pkg/hls. -/
structure Segment where
  seq : Nat
  uri : String
  duration : ℚ
  parts : List Part
  discontinuity : Bool
  complete : Bool
  creationTimeMS : Int
deriving DecidableEq, Repr

/-- The pkg/hls `Config` fields the modelled operations read.
`EnablePartial` in the source is called `partEnabled` here. -/
structure Config where
  keepSegments : Int
  partEnabled : Bool
deriving DecidableEq, Repr

/-- PlaylistManager state, from pkg/hls. -/
structure PlaylistManager where
  cfg : Config
  segments : List Segment
  pendingDiscontinuity : Bool
deriving DecidableEq, Repr

/-- `PlaylistManager.Prune` from pkg/hls: returns (removed, new state). -/
def prune (p : PlaylistManager) : List Segment × PlaylistManager :=
  if p.cfg.keepSegments ≤ 0 ∨ (p.segments.length : Int) ≤ p.cfg.keepSegments then
    ([], p)
  else
    let removeCount := ((p.segments.length : Int) - p.cfg.keepSegments).toNat
    (p.segments.take removeCount, { p with segments := p.segments.drop removeCount })

/-- A one-segment playlist with `keepSegments = 0`, used as a
counterexample state. -/
def cexPrunePM : PlaylistManager :=
  { cfg := { keepSegments := 0, partEnabled := true },
    segments := [{ seq := 3, uri := "seg_000003.m4s", duration := 2, parts := [],
                   discontinuity := false, complete := true, creationTimeMS := 0 }],
    pendingDiscontinuity := false }

/-- Concrete three-segment playlist with `keep_segments = 2` for the C6
witness. -/
def wPrunePM : PlaylistManager :=
  { cfg := { keepSegments := 2, partEnabled := true },
    segments :=
      [{ seq := 1, uri := "seg_000001.m4s", duration := 2, parts := [],
         discontinuity := false, complete := true, creationTimeMS := 0 },
       { seq := 2, uri := "seg_000002.m4s", duration := 2, parts := [],
         discontinuity := false, complete := true, creationTimeMS := 0 },
       { seq := 3, uri := "seg_000003.m4s", duration := 2, parts := [],
         discontinuity := false, complete := true, creationTimeMS := 0 }],
    pendingDiscontinuity := false }

/-- One line of a rendered playlist. `Render`/`parsePlaylist` work on
text; this models each non-blank trimmed line by which tag it carries
(three-decimal duration formatting and attribute quoting are abstracted:
durations stay `ℚ`, URIs stay strings). `headerTag` covers the fixed
header lines (#EXTM3U, #EXT-X-VERSION, #EXT-X-TARGETDURATION,
#EXT-X-SERVER-CONTROL, #EXT-X-PART-INF, #EXT-X-MAP), which the parser
skips. -/
inductive Line
| headerTag (label : String)
| mediaSeq (seq : Nat)
| disc
| partLine (dur : ℚ) (uri : String)
| extinf (dur : ℚ)
| uriLine (uri : String)
deriving DecidableEq, Repr

/-- `segments[0].Seq` with 0 for an empty window (the value Render puts
in #EXT-X-MEDIA-SEQUENCE). -/
def headSeq : List Segment → Nat
  | [] => 0
  | s :: _ => s.seq

/-- The fixed header lines of `Render`, in order. -/
def renderHeader (cfg : Config) : List Line :=
  [Line.headerTag "EXTM3U", Line.headerTag "VERSION", Line.headerTag "TARGETDURATION",
   Line.headerTag "SERVER-CONTROL"] ++
  (if cfg.partEnabled then [Line.headerTag "PART-INF"] else []) ++
  [Line.headerTag "MAP"]

/-- The lines `Render` emits for one segment: optional
#EXT-X-DISCONTINUITY, the #EXT-X-PART lines when partial rendering is
enabled, and #EXTINF plus the URI line when the segment is complete. -/
def renderSegment (partEnabled : Bool) (seg : Segment) : List Line :=
  (if seg.discontinuity then [Line.disc] else []) ++
  (if partEnabled then seg.parts.map (fun pt => Line.partLine pt.duration pt.uri) else []) ++
  (if seg.complete then [Line.extinf seg.duration, Line.uriLine seg.uri] else [])

/-- `PlaylistManager.Render` at the line level. -/
def render (p : PlaylistManager) : List Line :=
  renderHeader p.cfg ++
  [Line.mediaSeq (headSeq p.segments)] ++
  (p.segments.map (renderSegment p.cfg.partEnabled)).flatten

/-- The mutable locals of `parsePlaylist`'s line loop. The source's
`currentIdx : int` with -1 for "none" is an `Option Nat`. -/
structure ParseState where
  segments : List Segment
  pendingDiscontinuity : Bool
  currentIdx : Option Nat
  hasMediaSeq : Bool
  nextSeq : Nat
  expectURI : Bool
  pendingDuration : ℚ
deriving DecidableEq, Repr

def initParseState : ParseState :=
  { segments := [], pendingDiscontinuity := false, currentIdx := none, hasMediaSeq := false,
    nextSeq := 0, expectURI := false, pendingDuration := 0 }

/-- In-place update of `segments[idx]` (Go's slice-index assignment). -/
def updateAt (f : Segment → Segment) : List Segment → Nat → List Segment
  | [], _ => []
  | a :: t, 0 => f a :: t
  | a :: t, n + 1 => a :: updateAt f t n

/-- The segment `createSegment` appends: next sequence number, pending
discontinuity stamped, nothing else set (`time.Now()` modelled as 0; the
round-trip compares every field except creation time). -/
def emptySegment (seq : Nat) (disc : Bool) : Segment :=
  { seq := seq, uri := "", duration := 0, parts := [], discontinuity := disc, complete := false,
    creationTimeMS := 0 }

/-- `createSegment` from `parsePlaylist`: append a fresh segment,
consume the pending discontinuity, return its index. -/
def createSegment (st : ParseState) : ParseState × Nat :=
  ({ st with
     segments := st.segments ++ [emptySegment st.nextSeq st.pendingDiscontinuity],
     nextSeq := st.nextSeq + 1, pendingDiscontinuity := false },
   st.segments.length)

/-- The shared `idx := currentIdx; if idx < 0 || segments[idx].Complete
then idx = createSegment()` logic of the URI and #EXT-X-PART handlers. -/
def targetIdx (st : ParseState) : ParseState × Nat :=
  match st.currentIdx with
  | none => createSegment st
  | some i =>
    if (st.segments.getD i (emptySegment 0 false)).complete then createSegment st
    else (st, i)

/-- One iteration of `parsePlaylist`'s loop over a trimmed non-blank
line. In URI-expectation mode any tag line (anything but a URI line) is
skipped, as the source's `continue` does. -/
def parseLine (st : ParseState) (line : Line) : ParseState :=
  if st.expectURI then
    match line with
    | Line.uriLine u =>
      let r := targetIdx st
      { r.1 with
        segments := updateAt
          (fun sg => { sg with uri := u, duration := st.pendingDuration, complete := true })
          r.1.segments r.2,
        currentIdx := some r.2, expectURI := false }
    | _ => st
  else
    match line with
    | Line.mediaSeq n => { st with hasMediaSeq := true, nextSeq := n }
    | Line.disc => { st with pendingDiscontinuity := true }
    | Line.partLine d u =>
      if u = "" then st
      else
        let r := targetIdx st
        { r.1 with
          segments := updateAt
            (fun sg => { sg with parts := sg.parts ++ [{ uri := u, duration := d }] })
            r.1.segments r.2,
          currentIdx := some r.2 }
    | Line.extinf d => { st with pendingDuration := d, expectURI := true }
    | Line.headerTag _ => st
    | Line.uriLine _ => st

/-- `parsePlaylist` from pkg/hls at the line level: fold the loop, drop a
trailing incomplete segment when requested, renumber from 0 when no
media-sequence tag was seen, and return the segments with the last
sequence number. -/
def parsePlaylist (lines : List Line) (dropIncomplete : Bool) : List Segment × Nat :=
  let st := lines.foldl parseLine initParseState
  let segs := st.segments
  let segs :=
    if dropIncomplete then
      match segs.getLast? with
      | some s => if s.complete then segs else segs.dropLast
      | none => segs
    else segs
  let segs :=
    if ¬ st.hasMediaSeq ∧ segs ≠ [] then segs.enum.map (fun q => { q.2 with seq := q.1 })
    else segs
  (segs,
   match segs.getLast? with
   | some s => s.seq
   | none => 0)

/-- Every segment field the round-trip claim compares: everything except
`creationTimeMS` (stamped with the wall clock on parse). -/
def Segment.core (s : Segment) : Nat × String × ℚ × List Part × Bool × Bool :=
  (s.seq, s.uri, s.duration, s.parts, s.discontinuity, s.complete)

/-- What parsing recovers for one rendered segment carrying sequence
number `n`: a complete segment round-trips every compared field; a
pending one keeps its parts and discontinuity but has no URI and
duration 0 (which a well-formed pending segment also has). -/
def parsedOf (n : Nat) (seg : Segment) : Segment :=
  if seg.complete then
    { seq := n, uri := seg.uri, duration := seg.duration, parts := seg.parts,
      discontinuity := seg.discontinuity, complete := true, creationTimeMS := 0 }
  else
    { seq := n, uri := "", duration := 0, parts := seg.parts,
      discontinuity := seg.discontinuity, complete := false, creationTimeMS := 0 }

def parsedList (n : Nat) : List Segment → List Segment
  | [] => []
  | s :: t => parsedOf n s :: parsedList (n + 1) t

/-- Renderable well-formedness of one manager-held segment: part URIs
are non-empty (parsePartLine drops empty URIs), a complete segment has a
URI (an empty URI would render as a blank line), and a pending segment
(only ever produced by AddPart) has no URI, duration 0 and at least one
part. -/
def goodSeg (s : Segment) : Bool :=
  s.parts.all (fun pt => pt.uri != "") &&
  (if s.complete then s.uri != "" else (s.uri == "") && (s.duration == 0) && !s.parts.isEmpty)

/-- A manager-held window: every segment renderable and every segment
but the last complete. -/
def goodWindow : List Segment → Bool
  | [] => true
  | [s] => goodSeg s
  | s :: t => goodSeg s && s.complete && goodWindow t

/-- Sequence numbers are consecutive starting at `n`. -/
def seqsFrom (n : Nat) : List Segment → Bool
  | [] => true
  | s :: t => (s.seq == n) && seqsFrom (n + 1) t

/-- The claim's allowance: the rendered window, minus a trailing
incomplete segment when `drop_incomplete` is set. -/
def expectedWindow (segs : List Segment) (dropIncomplete : Bool) : List Segment :=
  if dropIncomplete then
    match segs.getLast? with
    | some s => if s.complete then segs else segs.dropLast
    | none => segs
  else segs

/-- Line classifiers used by the C5 statements. -/
def isMediaSeqLine : Line → Bool
  | Line.mediaSeq _ => true
  | _ => false

def isPartLine : Line → Bool
  | Line.partLine _ _ => true
  | _ => false

/-- A pending segment carrying a discontinuity marker: its rendering
starts with #EXT-X-DISCONTINUITY, not an #EXT-X-PART line. -/
def cexPendingSeg : Segment :=
  { seq := 4, uri := "", duration := 0,
    parts := [{ uri := "part_000004_00.m4s", duration := 1 }],
    discontinuity := true, complete := false, creationTimeMS := 0 }

/-- Concrete two-segment playlist (one complete, one pending) used by
the C2 and C5 witnesses. -/
def wRenderPM : PlaylistManager :=
  { cfg := { keepSegments := 6, partEnabled := true },
    segments :=
      [{ seq := 7, uri := "seg_000007.m4s", duration := 2,
         parts := [{ uri := "part_000007_00.m4s", duration := 1 },
                   { uri := "part_000007_01.m4s", duration := 1 }],
         discontinuity := true, complete := true, creationTimeMS := 0 },
       { seq := 8, uri := "", duration := 0,
         parts := [{ uri := "part_000008_00.m4s", duration := 1 }],
         discontinuity := false, complete := false, creationTimeMS := 0 }],
    pendingDiscontinuity := false }

end Hls

namespace Pkg

/-- The packager fields `computePartIndex` reads (pkg/packager). The
input `tsMS` is the sample decode time already converted back to
milliseconds by `timescaleToMS`. -/
structure Timing where
  startTSMS : Int
  segmentOffset : Nat
  partDurationMS : Int
  segmentDurationMS : Int
deriving DecidableEq, Repr

/-- `Packager.computePartIndex` from pkg/packager, as a function of the
millisecond timestamp: returns (partIdx, segSeq, partStartMS). Go's
truncated integer division is `Int.tdiv`. -/
def computePartIndex (p : Timing) (tsMS : Int) : Int × Nat × Int :=
  let rel0 := tsMS - p.startTSMS
  let rel := if rel0 < 0 then 0 else rel0
  let pps0 := p.segmentDurationMS.tdiv p.partDurationMS
  let partsPerSeg := if pps0 ≤ 0 then 1 else pps0
  let globalPartIdx := rel.tdiv p.partDurationMS
  let segIdx := rel.tdiv p.segmentDurationMS
  let segSeq := segIdx.toNat + 1 + p.segmentOffset
  let segStartMS := p.startTSMS + segIdx * p.segmentDurationMS
  let partIdx0 := globalPartIdx - segIdx * partsPerSeg
  let partIdx := if partIdx0 < 0 then 0 else partIdx0
  let partStartMS := segStartMS + partIdx * p.partDurationMS
  (partIdx, segSeq, partStartMS)

/-- Concrete timing used by the C4 witness. -/
def wTiming : Timing :=
  { startTSMS := 1000, segmentOffset := 5, partDurationMS := 200, segmentDurationMS := 2000 }

/-- pendingSample from pkg/packager. -/
structure PendSample where
  dtsMS : Int
  ctsMS : Int
  data : List Nat
  isKey : Bool
deriving DecidableEq, Repr

/-- trackState from pkg/packager, restricted to the fields that determine
the decode timestamps (timescale and trackID only affect the emitted
fMP4 sample encoding, not the millisecond timestamps). -/
structure TrackState where
  pending : Option PendSample
  lastDurMS : Int
  defaultDurMS : Int
  lastDTSMS : Int
  hasStarted : Bool
deriving DecidableEq, Repr

/-- The per-sample ingest state of a packager driven on a single track:
`started`/`startTSMS` from Packager plus that track's state. -/
structure IngestState where
  started : Bool
  startTSMS : Int
  track : TrackState
deriving DecidableEq, Repr

/-- The effect of `Packager.reset` combined with the explicit field
clearing in `ingestSample`'s 5-second-jump branch, restricted to the
modelled fields: startTSMS := 0, started := false, pending := nil,
hasStarted := false, lastDTSMS := 0. -/
def ingestReset (p : IngestState) : IngestState :=
  { p with
    started := false, startTSMS := 0,
    track := { p.track with pending := none, hasStarted := false, lastDTSMS := 0 } }

/-- The monotonicity guard and one-sample-lookahead release of
`Packager.ingestSample` (everything after the jump check). Returns the
new track state and the released sample, if any. -/
def ingestCore (t : TrackState) (sample : PendSample) : TrackState × Option PendSample :=
  let sample :=
    match t.hasStarted, t.pending with
    | true, some pend =>
      if sample.dtsMS ≤ pend.dtsMS then
        { sample with dtsMS := pend.dtsMS + max t.lastDurMS 1 }
      else sample
    | _, _ => sample
  match t.pending with
  | none =>
    ({ t with pending := some sample, hasStarted := true, lastDTSMS := sample.dtsMS }, none)
  | some pend =>
    let durMS := sample.dtsMS - pend.dtsMS
    let durMS := if durMS ≤ 0 then t.lastDurMS else durMS
    let durMS := if durMS ≤ 0 then t.defaultDurMS else durMS
    let durMS := if durMS ≤ 0 then 1 else durMS
    ({ t with lastDurMS := durMS, lastDTSMS := sample.dtsMS, pending := some sample }, some pend)

/-- `Packager.ingestSample`: 5-second-jump reset check, then guard and
release. The third component reports whether the reset branch fired. -/
def ingestSample (p : IngestState) (sample : PendSample) :
    IngestState × Option PendSample × Bool :=
  if p.track.hasStarted ∧ p.track.lastDTSMS ≠ 0 ∧
      5000 < |sample.dtsMS - p.track.lastDTSMS| then
    let p := ingestReset p
    let r := ingestCore p.track sample
    ({ p with track := r.1 }, r.2, true)
  else
    let r := ingestCore p.track sample
    ({ p with track := r.1 }, r.2, false)

/-- `Packager.addSample` for a single track past the init-written gates:
`ensureStart`, the clamp of `dtsMS` up to `startTSMS`, then ingest. -/
def addSample (p : IngestState) (sample : PendSample) :
    IngestState × Option PendSample × Bool :=
  let p := if p.started then p else { p with started := true, startTSMS := sample.dtsMS }
  let sample :=
    if sample.dtsMS < p.startTSMS then { sample with dtsMS := p.startTSMS } else sample
  ingestSample p sample

/-- Feed a list of samples through `addSample`; collects the released
samples in order and whether any step took the reset branch. -/
def runSamples (p : IngestState) : List PendSample → IngestState × List PendSample × Bool
  | [] => (p, [], false)
  | s :: rest =>
    let r₁ := addSample p s
    let r₂ := runSamples r₁.1 rest
    (r₂.1, (match r₁.2.1 with | some q => [q] | none => []) ++ r₂.2.1, r₁.2.2 || r₂.2.2)

/-- Fresh single-track ingest state (video defaults). -/
def pkgInit : IngestState :=
  { started := false, startTSMS := 0,
    track := { pending := none, lastDurMS := 0, defaultDurMS := 33, lastDTSMS := 0,
               hasStarted := false } }

/-- A video sample with the given decode timestamp. -/
def vSample (t : Int) : PendSample := { dtsMS := t, ctsMS := 0, data := [], isKey := false }

/-- Sample timestamps whose 5-second backward jump (10000 → 4500)
triggers the reset branch and then releases 4500 after 10000. -/
def cexC3Samples : List PendSample :=
  [vSample 1000, vSample 2000, vSample 6000, vSample 10000, vSample 4500, vSample 4600]

/-- Reset-free sample timestamps used by the C3 witness. -/
def wC3Samples : List PendSample := [vSample 0, vSample 40, vSample 40, vSample 100]

/-- Concrete pending state for the C3 witness's guard clause. -/
def wGuardTrack : TrackState :=
  { pending := some (vSample 500), lastDurMS := 40, defaultDurMS := 33, lastDTSMS := 500,
    hasStarted := true }

/-- The decode timestamps of an optional released sample. -/
def releasedDTS (o : Option PendSample) : List Int :=
  match o with
  | some q => [q.dtsMS]
  | none => []

/-- Invariant carried through `runSamples`: the released decode times so
far form a strictly increasing chain, any pending sample dominates them
all (and implies `hasStarted`), and nothing was released before a first
sample was pending. -/
def PkgInv (t : TrackState) (rel : List Int) : Prop :=
  List.Chain' (fun a b => a < b) rel ∧
  (∀ ps, t.pending = some ps → t.hasStarted = true ∧ ∀ x ∈ rel, x < ps.dtsMS) ∧
  (t.pending = none → rel = [])

end Pkg

namespace Rec

/-- The Recorder fields read and written by `StartSession` and
`adjustTS` (pkg/archive/recorder.go). -/
structure AdjustState where
  sessions : Nat
  sessionStarted : Bool
  sessionOffsetMS : Int
  lastTSMS : Int
deriving DecidableEq, Repr

/-- `Recorder.StartSession`. -/
def startSession (r : AdjustState) : AdjustState :=
  { r with sessions := r.sessions + 1, sessionStarted := false, sessionOffsetMS := 0 }

/-- `Recorder.adjustTS`: on the first sample of a session latch the
session offset, then add it and track the running maximum. -/
def adjustTS (r : AdjustState) (tsMS : Int) : AdjustState × Int :=
  let r :=
    if ¬ r.sessionStarted then
      { r with
        sessionStarted := true,
        sessionOffsetMS :=
          if r.lastTSMS > 0 ∧ tsMS < r.lastTSMS + 1 then (r.lastTSMS + 1) - tsMS else 0 }
    else r
  let adj := tsMS + r.sessionOffsetMS
  let r := if adj > r.lastTSMS then { r with lastTSMS := adj } else r
  (r, adj)

/-- Feed a list of sample timestamps through `adjustTS`. -/
def runAdjust (r : AdjustState) : List Int → AdjustState × List Int
  | [] => (r, [])
  | t :: rest =>
    let r₁ := adjustTS r t
    let r₂ := runAdjust r₁.1 rest
    (r₂.1, r₁.2 :: r₂.2)

/-- A freshly constructed recorder (`NewRecorder` zero state). -/
def recInit : AdjustState :=
  { sessions := 0, sessionStarted := false, sessionOffsetMS := 0, lastTSMS := 0 }

/-- Pre-disconnect state used by the C7 witness: last written adjusted
timestamp 50. -/
def wRecState : AdjustState :=
  { sessions := 1, sessionStarted := true, sessionOffsetMS := 0, lastTSMS := 50 }

/-- New-session timestamps used by the C7 witness. -/
def wRecTimes : List Int := [30, 60]

end Rec

namespace Util

/-- binary.BigEndian.Uint16 over two bytes. -/
def be16 (hi lo : Nat) : Nat := hi * 256 + lo

/-- AVCConfig from pkg/util/avc.go. Bytes are modelled as `ℕ`. -/
structure AVCConfig where
  profile : Nat
  compatibility : Nat
  level : Nat
  lengthSize : Nat
  sps : List (List Nat)
  pps : List (List Nat)
deriving DecidableEq, Repr

/-- The SPS/PPS scanning loop of `ParseAVCDecoderConfig`: read `count`
length-prefixed blocks starting at `offset`; check `len(data) < offset+2`
then `len(data) < offset+2+blockLen` exactly as the source does, and
return the payloads in order together with the final offset. -/
def readBlocks (kind : String) (data : List Nat) : Nat → Nat → Except String (List (List Nat) × Nat)
  | offset, 0 => .ok ([], offset)
  | offset, count + 1 =>
    if data.length < offset + 2 then .error ("invalid " ++ kind ++ " length")
    else
      let blen := be16 (data.getD offset 0) (data.getD (offset + 1) 0)
      if data.length < offset + 2 + blen then .error ("invalid " ++ kind ++ " data")
      else
        match readBlocks kind data (offset + 2 + blen) count with
        | .error e => .error e
        | .ok r => .ok (((data.drop (offset + 2)).take blen) :: r.1, r.2)

/-- `ParseAVCDecoderConfig` from pkg/util/avc.go. -/
def parseAVCDecoderConfig (data : List Nat) : Except String AVCConfig :=
  if data.length < 7 then .error "avc config too short"
  else if data.getD 0 0 ≠ 1 then .error "avc config version not 1"
  else
    let lengthSize := (data.getD 4 0 &&& 3) + 1
    if lengthSize ≠ 4 then .error "unsupported nalu length size"
    else
      let numSPS := data.getD 5 0 &&& 31
      match readBlocks "sps" data 6 numSPS with
      | .error e => .error e
      | .ok spsr =>
        if data.length < spsr.2 + 1 then .error "invalid pps count"
        else
          match readBlocks "pps" data (spsr.2 + 1) (data.getD spsr.2 0) with
          | .error e => .error e
          | .ok ppsr =>
            .ok { profile := data.getD 1 0, compatibility := data.getD 2 0,
                  level := data.getD 3 0, lengthSize := lengthSize,
                  sps := spsr.1, pps := ppsr.1 }

/-- From the spec's words: the offset just past `count` length-prefixed
blocks starting at `offset` (big-endian u16 length, then payload). -/
def specEnd (data : List Nat) : Nat → Nat → Nat
  | offset, 0 => offset
  | offset, count + 1 =>
    specEnd data (offset + 2 + be16 (data.getD offset 0) (data.getD (offset + 1) 0)) count

/-- From the spec's words: the payloads of `count` length-prefixed blocks
starting at `offset`. -/
def specBlocks (data : List Nat) : Nat → Nat → List (List Nat)
  | _, 0 => []
  | offset, count + 1 =>
    ((data.drop (offset + 2)).take (be16 (data.getD offset 0) (data.getD (offset + 1) 0))) ::
      specBlocks data (offset + 2 + be16 (data.getD offset 0) (data.getD (offset + 1) 0)) count

/-- Offset of the PPS-count byte: past the declared SPS blocks
(SPS count = low 5 bits of byte 5, blocks start at byte 6). -/
def spsEndOffset (data : List Nat) : Nat := specEnd data 6 (data.getD 5 0 &&& 31)

/-- The buffer length required by the declared SPS/PPS counts and their
big-endian u16 lengths; the input is truncated iff shorter than this. -/
def requiredLen (data : List Nat) : Nat :=
  specEnd data (spsEndOffset data + 1) (data.getD (spsEndOffset data) 0)

/-- A well-formed AVCDecoderConfigurationRecord used by the C8 witness:
version 1, profile 66, level 30, length size 4, one SPS `[7, 8]`, one
PPS `[9]`. -/
def wAvcData : List Nat := [1, 66, 0, 30, 255, 1, 0, 2, 7, 8, 1, 0, 1, 9]

/-- The parse of `wAvcData`. -/
def wAvcCfg : AVCConfig :=
  { profile := 66, compatibility := 0, level := 30, lengthSize := 4,
    sps := [[7, 8]], pps := [[9]] }

end Util

namespace Rtmp

/-- ASCII whitespace recognized by strings.TrimSpace (the Unicode-only
space code points do not occur in RTMP publishing names). -/
def isSpaceChar (c : Char) : Bool :=
  c == ' ' || c == '\t' || c == '\n' || c == '\r' || c == '\x0b' || c == '\x0c'

/-- Trim characters satisfying `p` from both ends (strings.Trim /
strings.TrimSpace shape). -/
def trimBy (p : Char → Bool) (l : List Char) : List Char :=
  ((l.dropWhile p).reverse.dropWhile p).reverse

def trimSpace (l : List Char) : List Char := trimBy isSpaceChar l

def trimSlash (l : List Char) : List Char := trimBy (fun c => c == '/') l

/-- Split at the first occurrence of `c` (strings.Index + slicing):
`none` when absent, else the parts before and after it. -/
def splitAtChar (c : Char) : List Char → Option (List Char × List Char)
  | [] => none
  | a :: rest =>
    if a == c then some ([], rest)
    else
      match splitAtChar c rest with
      | none => none
      | some r => some (a :: r.1, r.2)

/-- strings.Split by a single-character separator (empty fields kept). -/
def splitOnChar (c : Char) : List Char → List (List Char)
  | [] => [[]]
  | a :: rest =>
    if a == c then [] :: splitOnChar c rest
    else
      match splitOnChar c rest with
      | [] => [[a]]
      | f :: fs => (a :: f) :: fs

/-- strings.SplitN(pair, "=", 2). -/
def splitN2Eq (l : List Char) : List (List Char) :=
  match splitAtChar '=' l with
  | none => [l]
  | some r => [r.1, r.2]

/-- The query-parameter loop of `sanitizeStreamKey`: the first pair of
the form `key=<nonempty>` yields its raw value. -/
def findKeyValue : List (List Char) → Option (List Char)
  | [] => none
  | pair :: rest =>
    match splitN2Eq pair with
    | [k, v] =>
      if k = ['k', 'e', 'y'] ∧ v ≠ [] then some v else findKeyValue rest
    | _ => findKeyValue rest

/-- filepath.Base for slash-separated paths (no volume names). -/
def goPathBase (path : List Char) : List Char :=
  if path = [] then ['.']
  else
    let p1 := (path.reverse.dropWhile (fun c => c == '/')).reverse
    let p2 := (p1.reverse.takeWhile (fun c => c != '/')).reverse
    if p2 = [] then ['/'] else p2

/-- `sanitizeStreamKey` from pkg/rtmp/handler.go. -/
def sanitizeStreamKey (name : List Char) : List Char :=
  let name := trimSlash (trimSpace name)
  if name = [] then []
  else
    match splitAtChar '?' name with
    | some r =>
      match findKeyValue (splitOnChar '&' r.2) with
      | some v => v
      | none => goPathBase r.1
    | none => goPathBase name

/-- `sanitizeStreamID` from pkg/rtmp/handler.go. -/
def sanitizeStreamID (name : List Char) : List Char :=
  let name := trimSlash (trimSpace name)
  if name = [] then []
  else
    let name :=
      match splitAtChar '?' name with
      | some r => r.1
      | none => name
    let base := goPathBase name
    if base = ['.'] ∨ base = ['.', '.'] then [] else base

end Rtmp

namespace Policy

/-- A decoded JSON value as produced by json.Unmarshal into
`map[string]interface{}`: strings, booleans, numbers (float64), and
anything else. (The json.Number branch of parseBoolValue is unreachable
with this decoder and is not modelled.) -/
inductive JsonVal
| jstr (s : String)
| jbool (b : Bool)
| jnum (q : ℚ)
| jother
deriving DecidableEq, Repr

/-- The admission response body as seen by `parseAuthResponse`: empty
after TrimSpace, undecodable JSON, or a decoded object. -/
inductive AuthBody
| empty
| invalidJson
| obj (fields : List (String × JsonVal))
deriving DecidableEq, Repr

/-- The abstract outcome of the admission HTTP exchange: URL parse
failure, request construction failure, transport failure, or a response
with a status code and body. -/
inductive AuthOutcome
| urlParseError
| buildError
| transportError
| response (status : Nat) (body : AuthBody)
deriving DecidableEq, Repr

/-- The HTTPPolicy fields `Authorize`'s control flow reads. -/
structure HTTPPolicyCfg where
  authURL : String
  debugSkip : Bool
deriving DecidableEq, Repr

/-- strconv.ParseBool. -/
def goParseBool (s : String) : Option Bool :=
  match s with
  | "1" | "t" | "T" | "TRUE" | "true" | "True" => some true
  | "0" | "f" | "F" | "FALSE" | "false" | "False" => some false
  | _ => none

/-- `parseBoolValue` from pkg/policy. -/
def parseBoolValue : JsonVal → Option Bool
  | .jbool b => some b
  | .jstr s => goParseBool s
  | .jnum q => if q = 0 then some false else some true
  | .jother => none

/-- Go map lookup over the decoded object's fields. -/
def lookupField : List (String × JsonVal) → String → Option JsonVal
  | [], _ => none
  | kv :: rest, key => if kv.1 = key then some kv.2 else lookupField rest key

structure AuthResponse where
  streamName : String
  allowRewind : Option Bool
deriving DecidableEq, Repr

/-- `parseAuthResponse` from pkg/policy. -/
def parseAuthResponse : AuthBody → Except Unit AuthResponse
  | .empty => .ok { streamName := "", allowRewind := none }
  | .invalidJson => .error ()
  | .obj fields =>
    let streamName :=
      match lookupField fields "stream_name" with
      | some (.jstr s) => s
      | _ => ""
    let allowRewind :=
      match lookupField fields "allow_rewind" with
      | some v => parseBoolValue v
      | none => none
    .ok { streamName := streamName, allowRewind := allowRewind }

/-- `HTTPPolicy.Authorize` from pkg/policy, as a function of the HTTP
outcome (the request construction itself is I/O and is abstracted into
`AuthOutcome`). -/
def authorize (p : HTTPPolicyCfg) (o : AuthOutcome) : PolicyResult :=
  if p.debugSkip ∨ p.authURL = "" then acceptResult
  else
    match o with
    | .urlParseError => rejectWith "KEY_INVALID" "auth url invalid"
    | .buildError => rejectWith "KEY_INVALID" "auth request failed"
    | .transportError => rejectWith "KEY_INVALID" "auth request error"
    | .response status body =>
      if status ≠ 200 then rejectWith "KEY_INVALID" "auth status"
      else
        match parseAuthResponse body with
        | .error _ =>
          { decision := .accept, reason := "", message := "auth response parse error",
            streamName := "", allowRewind := none }
        | .ok a =>
          { decision := .accept, reason := "", message := "",
            streamName := a.streamName, allowRewind := a.allowRewind }

/-- Concrete policy configuration (auth URL set, no debug skip) for the
C10 witness. -/
def wAuthCfg : HTTPPolicyCfg := { authURL := "https://auth.example/check", debugSkip := false }

end Policy

namespace Policy

/-- C1: counterexample to the claim as stated. At `cexCfg`/`cexResult`
(width 0, height 2160 over the 1080 cap) the claimed check order demands
a RESOLUTION_TOO_LARGE reject, but the source accepts because it only
compares the resolution when both width and height are positive. -/
theorem evaluate_claim_cex : claimEvaluate cexCfg cexResult ≠ evaluate cexCfg cexResult := by
  decide

/-- C1: amended claim. `Evaluate` applies the six admission checks in the
documented order with first-match-wins semantics — reject
CODEC_UNSUPPORTED; reject RESOLUTION_TOO_LARGE only when width > 0 and
height > 0 and a cap is exceeded; reject NO_KEYFRAME_TIMEOUT; reject
AUDIO_UNSUPPORTED when audio is missing and required; reject
AUDIO_UNSUPPORTED when a non-AAC audio codec is rejected; and, only when
max_gop_seconds > 0 and gop_seconds exceeds it, reject GOP_TOO_LONG when
configured to reject, else return decision DEGRADED; otherwise accept.
A later violation never changes the reason of an earlier firing check. -/
theorem evaluate_checks_in_order (cfg : Config) (r : InspectResult) :
    evaluate cfg r = amendedEvaluate cfg r := by
  have hgop : ((cfg.maxGOPSeconds > 0 ∧ r.gopSeconds > 0) ∧ r.gopSeconds > cfg.maxGOPSeconds) ↔
      (cfg.maxGOPSeconds > 0 ∧ r.gopSeconds > cfg.maxGOPSeconds) := by
    constructor
    · rintro ⟨⟨h1, _⟩, h3⟩
      exact ⟨h1, h3⟩
    · rintro ⟨h1, h3⟩
      exact ⟨⟨h1, lt_trans h1 h3⟩, h3⟩
  have hres : ((r.width > 0 ∧ r.height > 0) ∧ (r.width > cfg.maxWidth ∨ r.height > cfg.maxHeight)) ↔
      (r.width > 0 ∧ r.height > 0 ∧ (r.width > cfg.maxWidth ∨ r.height > cfg.maxHeight)) := by
    tauto
  unfold evaluate amendedEvaluate
  rw [if_congr hres rfl rfl, if_congr hgop rfl rfl]

end Policy

namespace Hls

/-- C6: counterexample to the claim as stated. With `keep_segments = 0`
and one segment, the claim demands that the oldest `1 - 0 = 1` segment be
removed, but `Prune` returns nothing because the source short-circuits
whenever `KeepSegments <= 0`. -/
theorem prune_claim_cex :
    (prune cexPrunePM).1 ≠
      cexPrunePM.segments.take (cexPrunePM.segments.length - cexPrunePM.cfg.keepSegments.toNat) := by
  decide

/-- C6: amended claim. When `keep_segments > 0`, `Prune` removes and
returns exactly the oldest `len - keep_segments` segments in their
original order, leaves the newest segments unchanged and in order, and at
most `keep_segments` segments remain; in particular when
`len ≤ keep_segments` nothing is removed. (When `keep_segments ≤ 0` the
source removes nothing regardless of the window length.) -/
theorem prune_window (p : PlaylistManager) (hk : 0 < p.cfg.keepSegments) :
    (prune p).1 = p.segments.take (p.segments.length - p.cfg.keepSegments.toNat) ∧
    (prune p).2.segments = p.segments.drop (p.segments.length - p.cfg.keepSegments.toNat) ∧
    ((prune p).2.segments.length : Int) ≤ max p.cfg.keepSegments (p.segments.length : Int) ∧
    (((p.segments.length : Int)) ≤ p.cfg.keepSegments → (prune p).1 = []) ∧
    ((p.cfg.keepSegments : Int) < (p.segments.length : Int) →
      ((prune p).2.segments.length : Int) = p.cfg.keepSegments) := by
  rcases le_or_lt (p.segments.length : Int) p.cfg.keepSegments with hle | hgt
  · have hz : p.segments.length - p.cfg.keepSegments.toNat = 0 := by omega
    have hp : prune p = ([], p) := by
      unfold prune
      rw [if_pos (Or.inr hle)]
    rw [hp, hz]
    exact ⟨by simp, by simp, le_max_right _ _, fun _ => by simp, fun h => absurd h (by omega)⟩
  · have hcond : ¬ (p.cfg.keepSegments ≤ 0 ∨ (p.segments.length : Int) ≤ p.cfg.keepSegments) := by
      omega
    have harith : ((p.segments.length : Int) - p.cfg.keepSegments).toNat =
        p.segments.length - p.cfg.keepSegments.toNat := by omega
    have hp : prune p =
        (p.segments.take (p.segments.length - p.cfg.keepSegments.toNat),
         { p with segments := p.segments.drop (p.segments.length - p.cfg.keepSegments.toNat) }) := by
      unfold prune
      rw [if_neg hcond, harith]
    rw [hp]
    refine ⟨rfl, rfl, ?_, fun h => absurd h (by omega), fun _ => ?_⟩
    · refine le_trans ?_ (le_max_left _ _)
      simp only [List.length_drop]
      omega
    · simp only [List.length_drop]
      omega

/-- C6 witness: `prune_window` applied to a concrete playlist. -/
theorem prune_window_witness :
    0 < wPrunePM.cfg.keepSegments ∧
    ((prune wPrunePM).1 = wPrunePM.segments.take
        (wPrunePM.segments.length - wPrunePM.cfg.keepSegments.toNat) ∧
      (prune wPrunePM).2.segments = wPrunePM.segments.drop
        (wPrunePM.segments.length - wPrunePM.cfg.keepSegments.toNat) ∧
      ((prune wPrunePM).2.segments.length : Int) ≤
        max wPrunePM.cfg.keepSegments (wPrunePM.segments.length : Int) ∧
      (((wPrunePM.segments.length : Int)) ≤ wPrunePM.cfg.keepSegments → (prune wPrunePM).1 = []) ∧
      ((wPrunePM.cfg.keepSegments : Int) < (wPrunePM.segments.length : Int) →
        ((prune wPrunePM).2.segments.length : Int) = wPrunePM.cfg.keepSegments)) :=
  ⟨by decide, prune_window wPrunePM (by decide)⟩

end Hls

namespace Pkg

theorem iteNegZero (x : Int) : (if x < 0 then (0 : Int) else x) = max 0 x := by
  rcases lt_or_le x 0 with h | h
  · simp [h, max_eq_left h.le]
  · simp [not_lt.mpr h, max_eq_right h]

theorem iteNonposOne (x : Int) (hx : 0 ≤ x) : (if x ≤ 0 then (1 : Int) else x) = max 1 x := by
  rcases le_or_lt x 0 with h | h
  · have hz : x = 0 := le_antisymm h hx
    simp [hz]
  · have h1 : (1 : Int) ≤ x := h
    simp [not_le.mpr h, max_eq_right h1]

/-- C4: with positive part and segment sizes, `computePartIndex` returns
exactly the claimed triple: `seg_seq = rel/S + 1 + segment_offset`,
`part_idx = max 0 (rel/P - (rel/S)*N)` with `N = max 1 (S/P)`, and
`part_start_ms = (start_ts + (rel/S)*S) + part_idx*P`, where
`rel = max 0 (dts - start_ts)` and `/` is Go's truncated division. -/
theorem computePartIndex_formula (p : Timing) (tsMS : Int)
    (hP : 0 < p.partDurationMS) (hS : 0 < p.segmentDurationMS) :
    computePartIndex p tsMS =
      (max 0 ((max 0 (tsMS - p.startTSMS)).tdiv p.partDurationMS -
          ((max 0 (tsMS - p.startTSMS)).tdiv p.segmentDurationMS) *
            (max 1 (p.segmentDurationMS.tdiv p.partDurationMS))),
       ((max 0 (tsMS - p.startTSMS)).tdiv p.segmentDurationMS).toNat + 1 + p.segmentOffset,
       (p.startTSMS +
          ((max 0 (tsMS - p.startTSMS)).tdiv p.segmentDurationMS) * p.segmentDurationMS) +
         (max 0 ((max 0 (tsMS - p.startTSMS)).tdiv p.partDurationMS -
            ((max 0 (tsMS - p.startTSMS)).tdiv p.segmentDurationMS) *
              (max 1 (p.segmentDurationMS.tdiv p.partDurationMS)))) * p.partDurationMS) := by
  have hpps : (0 : Int) ≤ p.segmentDurationMS.tdiv p.partDurationMS :=
    Int.tdiv_nonneg hS.le hP.le
  simp only [computePartIndex, iteNegZero, iteNonposOne _ hpps]

/-- C4 witness: `computePartIndex_formula` at a concrete timing and
timestamp. -/
theorem computePartIndex_formula_witness :
    0 < wTiming.partDurationMS ∧ 0 < wTiming.segmentDurationMS ∧
    computePartIndex wTiming 4500 =
      (max 0 ((max 0 (4500 - wTiming.startTSMS)).tdiv wTiming.partDurationMS -
          ((max 0 (4500 - wTiming.startTSMS)).tdiv wTiming.segmentDurationMS) *
            (max 1 (wTiming.segmentDurationMS.tdiv wTiming.partDurationMS))),
       ((max 0 (4500 - wTiming.startTSMS)).tdiv wTiming.segmentDurationMS).toNat + 1 +
         wTiming.segmentOffset,
       (wTiming.startTSMS +
          ((max 0 (4500 - wTiming.startTSMS)).tdiv wTiming.segmentDurationMS) *
            wTiming.segmentDurationMS) +
         (max 0 ((max 0 (4500 - wTiming.startTSMS)).tdiv wTiming.partDurationMS -
            ((max 0 (4500 - wTiming.startTSMS)).tdiv wTiming.segmentDurationMS) *
              (max 1 (wTiming.segmentDurationMS.tdiv wTiming.partDurationMS)))) *
           wTiming.partDurationMS) :=
  ⟨by decide, by decide, computePartIndex_formula wTiming 4500 (by decide) (by decide)⟩

theorem ingestCore_pending_none (t : TrackState) (s : PendSample) (hp : t.pending = none) :
    ingestCore t s =
      ({ t with pending := some s, hasStarted := true, lastDTSMS := s.dtsMS }, none) := by
  cases hhs : t.hasStarted <;> simp [ingestCore, hp, hhs]

theorem ingestCore_pending_some (t : TrackState) (s pend : PendSample)
    (hp : t.pending = some pend) (hs : t.hasStarted = true) :
    ∃ s' : PendSample, (ingestCore t s).2 = some pend ∧
      (ingestCore t s).1.pending = some s' ∧
      (ingestCore t s).1.hasStarted = true ∧ pend.dtsMS < s'.dtsMS := by
  by_cases hle : s.dtsMS ≤ pend.dtsMS
  · refine ⟨{ s with dtsMS := pend.dtsMS + max t.lastDurMS 1 }, ?_, ?_, ?_, ?_⟩
    · simp [ingestCore, hp, hs, hle]
    · simp [ingestCore, hp, hs, hle]
    · simp [ingestCore, hp, hs, hle]
    · exact lt_add_of_pos_right _ (lt_of_lt_of_le zero_lt_one (le_max_right _ _))
  · refine ⟨s, ?_, ?_, ?_, ?_⟩
    · simp [ingestCore, hp, hs, hle]
    · simp [ingestCore, hp, hs, hle]
    · simp [ingestCore, hp, hs, hle]
    · omega

theorem ingestSample_inv (p : IngestState) (s : PendSample) (rel : List Int)
    (hinv : PkgInv p.track rel) (hnr : (ingestSample p s).2.2 = false) :
    PkgInv (ingestSample p s).1.track (rel ++ releasedDTS (ingestSample p s).2.1) := by
  by_cases hc : p.track.hasStarted ∧ p.track.lastDTSMS ≠ 0 ∧
      5000 < |s.dtsMS - p.track.lastDTSMS|
  · exfalso
    simp [ingestSample, hc] at hnr
  · simp only [ingestSample, if_neg hc]
    rcases hpend : p.track.pending with _ | pend
    · have hrel : rel = [] := hinv.2.2 hpend
      subst hrel
      rw [ingestCore_pending_none p.track s hpend]
      refine ⟨?_, ?_, ?_⟩
      · simp [releasedDTS]
      · intro ps hps
        refine ⟨rfl, ?_⟩
        simp [releasedDTS]
      · intro h
        simp [releasedDTS]
    · obtain ⟨hhs, hdom⟩ := hinv.2.1 pend hpend
      obtain ⟨s', hrel2, hpend', hhs', hlt⟩ := ingestCore_pending_some p.track s pend hpend hhs
      rw [hrel2]
      simp only [releasedDTS]
      refine ⟨?_, ?_, ?_⟩
      · refine List.Chain'.append hinv.1 (List.chain'_singleton _) ?_
        intro x hx y hy
        obtain ⟨hne, rfl⟩ := List.mem_getLast?_eq_getLast hx
        have hxmem : rel.getLast hne ∈ rel := List.getLast_mem hne
        have hy' : pend.dtsMS = y := by simpa using hy
        subst hy'
        exact hdom _ hxmem
      · intro ps hps
        rw [hpend'] at hps
        obtain rfl : s' = ps := by injection hps
        refine ⟨hhs', ?_⟩
        intro x hx
        rcases List.mem_append.1 hx with hx | hx
        · exact lt_trans (hdom x hx) hlt
        · have hx' : x = pend.dtsMS := by simpa [releasedDTS] using hx
          subst hx'
          exact hlt
      · intro h
        rw [hpend'] at h
        cases h

theorem addSample_inv (p : IngestState) (s : PendSample) (rel : List Int)
    (hinv : PkgInv p.track rel) (hnr : (addSample p s).2.2 = false) :
    PkgInv (addSample p s).1.track (rel ++ releasedDTS (addSample p s).2.1) := by
  unfold addSample
  unfold addSample at hnr
  cases hst : p.started <;> simp only [hst, if_true, if_false, Bool.false_eq_true] at hnr ⊢ <;>
    exact ingestSample_inv _ _ rel hinv hnr

theorem runSamples_inv : ∀ (samples : List PendSample) (p : IngestState) (rel : List Int),
    PkgInv p.track rel → (runSamples p samples).2.2 = false →
    PkgInv (runSamples p samples).1.track
      (rel ++ (runSamples p samples).2.1.map PendSample.dtsMS) := by
  intro samples
  induction samples with
  | nil =>
    intro p rel hinv hnr
    simpa [runSamples] using hinv
  | cons s rest ih =>
    intro p rel hinv hnr
    simp only [runSamples, Bool.or_eq_false_iff] at hnr ⊢
    obtain ⟨h1, h2⟩ := hnr
    have hstep := addSample_inv p s rel hinv h1
    have hrec := ih (addSample p s).1 (rel ++ releasedDTS (addSample p s).2.1) hstep h2
    have hmap : ∀ o : Option PendSample,
        (match o with | some q => [q] | none => ([] : List PendSample)).map PendSample.dtsMS =
          releasedDTS o := by
      intro o
      cases o <;> simp [releasedDTS]
    simpa [List.map_append, hmap, List.append_assoc] using hrec

/-- C3: counterexample to the claim as stated. Feeding the timestamps
1000, 2000, 6000, 10000, 4500, 4600 to one track, the backward jump
10000 → 4500 exceeds 5000 ms, so `ingestSample` takes the reset branch,
discards the pending sample (10000) and restarts at 4500: the released
decode times are 1000, 2000, 6000, 4500 — not strictly increasing. -/
theorem ingest_monotone_cex :
    ¬ List.Chain' (fun a b => a < b)
      ((runSamples pkgInit cexC3Samples).2.1.map PendSample.dtsMS) := by
  intro h
  have hlist : (runSamples pkgInit cexC3Samples).2.1.map PendSample.dtsMS =
      [1000, 2000, 6000, 4500] := by decide
  rw [hlist, List.chain'_cons, List.chain'_cons, List.chain'_cons] at h
  obtain ⟨-, -, hbad, -⟩ := h
  omega

/-- C3: amended claim. Whenever a new sample's dts_ms is at most the
pending sample's, it is rewritten to `pending.dts_ms + max(last_dur_ms, 1)`
before replacing the pending sample; consequently, in any run in which the
5-second-jump reset branch never fires, the decode timestamps of the
samples released from the one-sample lookahead are strictly increasing.
(A reset clears the pending sample and may restart at a lower dts.) -/
theorem ingest_monotone_between_resets :
    (∀ (t : TrackState) (s pend : PendSample), t.hasStarted = true → t.pending = some pend →
      s.dtsMS ≤ pend.dtsMS →
      (ingestCore t s).1.pending = some { s with dtsMS := pend.dtsMS + max t.lastDurMS 1 }) ∧
    ∀ samples : List PendSample, (runSamples pkgInit samples).2.2 = false →
      List.Chain' (fun a b => a < b) ((runSamples pkgInit samples).2.1.map PendSample.dtsMS) := by
  constructor
  · intro t s pend hs hp hle
    simp [ingestCore, hp, hs, hle]
  · intro samples hnr
    have hinit : PkgInv pkgInit.track [] := by
      refine ⟨List.chain'_nil, ?_, fun _ => rfl⟩
      intro ps hps
      cases hps
    simpa using (runSamples_inv samples pkgInit [] hinit hnr).1

/-- C3 witness: `ingest_monotone_between_resets` applied to a concrete
guarded sample and a concrete reset-free run. -/
theorem ingest_monotone_between_resets_witness :
    (ingestCore wGuardTrack (vSample 480)).1.pending =
      some { vSample 480 with dtsMS := (vSample 500).dtsMS + max wGuardTrack.lastDurMS 1 } ∧
    List.Chain' (fun a b => a < b) ((runSamples pkgInit wC3Samples).2.1.map PendSample.dtsMS) :=
  ⟨ingest_monotone_between_resets.1 wGuardTrack (vSample 480) (vSample 500) rfl rfl (by decide),
   ingest_monotone_between_resets.2 wC3Samples (by decide)⟩

end Pkg

namespace Rec

theorem adjustTS_started (r : AdjustState) (t : Int) (hs : r.sessionStarted = true) :
    (adjustTS r t).2 = t + r.sessionOffsetMS ∧
    (adjustTS r t).1.sessionStarted = true ∧
    (adjustTS r t).1.sessionOffsetMS = r.sessionOffsetMS := by
  by_cases h2 : t + r.sessionOffsetMS > r.lastTSMS <;>
    simp [adjustTS, hs, h2]

theorem adjustTS_fresh (r : AdjustState) (t : Int)
    (hs : r.sessionStarted = false) (hL : 0 < r.lastTSMS) :
    (adjustTS r t).1.sessionOffsetMS = max 0 ((r.lastTSMS + 1) - t) ∧
    (adjustTS r t).2 = t + max 0 ((r.lastTSMS + 1) - t) ∧
    (adjustTS r t).1.sessionStarted = true ∧
    r.lastTSMS < (adjustTS r t).2 := by
  have hoff : (if r.lastTSMS > 0 ∧ t < r.lastTSMS + 1 then (r.lastTSMS + 1) - t else 0) =
      max 0 ((r.lastTSMS + 1) - t) := by
    by_cases hc : t < r.lastTSMS + 1
    · rw [if_pos ⟨hL, hc⟩, max_eq_right (by omega)]
    · rw [if_neg (by tauto), max_eq_left (by omega)]
  have hlt : r.lastTSMS < t + max 0 ((r.lastTSMS + 1) - t) := by
    rcases le_or_lt (r.lastTSMS + 1 - t) 0 with h | h
    · rw [max_eq_left h]
      omega
    · rw [max_eq_right h.le]
      omega
  by_cases h2 : t + max 0 ((r.lastTSMS + 1) - t) > r.lastTSMS
  · simp [adjustTS, hs, hoff, h2, hlt]
  · exact absurd hlt h2

theorem runAdjust_started : ∀ (l : List Int) (r : AdjustState), r.sessionStarted = true →
    (runAdjust r l).2 = l.map (fun t => t + r.sessionOffsetMS) ∧
    (runAdjust r l).1.sessionStarted = true ∧
    (runAdjust r l).1.sessionOffsetMS = r.sessionOffsetMS := by
  intro l
  induction l with
  | nil =>
    intro r hs
    simp [runAdjust, hs]
  | cons t rest ih =>
    intro r hs
    obtain ⟨hout, hs', hoff'⟩ := adjustTS_started r t hs
    obtain ⟨ho, hs'', hoff''⟩ := ih (adjustTS r t).1 hs'
    simp only [runAdjust, List.map_cons]
    exact ⟨by rw [hout, ho, hoff'], hs'', by rw [hoff'', hoff']⟩

/-- C7: counterexample to the claim as stated. On a fresh recorder
(`last_ts = 0`) the claimed formula gives
`session_offset = max(0, (0 + 1) - 0) = 1` for a first sample at 0, but
`adjustTS` latches offset 0 because the source only computes the rebase
when `lastTSMS > 0`. -/
theorem adjust_offset_claim_cex :
    (adjustTS (startSession recInit) 0).1.sessionOffsetMS ≠
      max 0 ((recInit.lastTSMS + 1) - 0) := by
  decide

/-- C7: amended claim. When the recorder has already written a sample
(`last_ts > 0`), a new session started by `StartSession` latches
`session_offset = max(0, (last_ts + 1) - first_sample_ts)` on its first
sample, the offset is added to every timestamp of the session, and —
provided the session's input timestamps are non-decreasing — every
adjusted post-reconnect timestamp is strictly greater than the last
pre-disconnect timestamp. (When `last_ts = 0` the source latches offset
0 instead of the formula's value.) -/
theorem adjust_session_rebase (r : AdjustState) (l : List Int)
    (hL : 0 < r.lastTSMS) (hmono : List.Chain' (fun a b => a ≤ b) l) :
    (∀ x ∈ (runAdjust (startSession r) l).2, r.lastTSMS < x) ∧
    (∀ t rest, l = t :: rest →
      (runAdjust (startSession r) l).1.sessionOffsetMS =
        max 0 ((r.lastTSMS + 1) - t)) := by
  cases l with
  | nil =>
    constructor
    · intro x hx
      simp [runAdjust] at hx
    · intro t rest heq
      cases heq
  | cons t rest =>
    have hfresh := adjustTS_fresh (startSession r) t rfl hL
    obtain ⟨hoff, hadj, hstarted, hlt⟩ := hfresh
    have hls : (startSession r).lastTSMS = r.lastTSMS := rfl
    rw [hls] at hoff hadj hlt
    obtain ⟨hout, hs', hoff'⟩ := runAdjust_started rest (adjustTS (startSession r) t).1 hstarted
    have hpair : ∀ y ∈ rest, t ≤ y := by
      intro y hy
      have hpw := (List.chain'_iff_pairwise).1 hmono
      exact List.rel_of_pairwise_cons hpw hy
    have hkey : r.lastTSMS < t + max 0 ((r.lastTSMS + 1) - t) := by
      rw [← hadj]
      exact hlt
    constructor
    · intro x hx
      simp only [runAdjust] at hx
      rw [List.mem_cons] at hx
      rcases hx with rfl | hx
      · exact hlt
      · rw [hout, hoff] at hx
        rw [List.mem_map] at hx
        obtain ⟨y, hy, rfl⟩ := hx
        have hty := hpair y hy
        linarith
    · intro t' rest' heq
      injection heq with h1 h2
      subst h1
      subst h2
      simp only [runAdjust]
      rw [hoff', hoff]

/-- C7 witness: `adjust_session_rebase` applied to a concrete
pre-disconnect state (last adjusted timestamp 50) and a concrete
non-decreasing session. -/
theorem adjust_session_rebase_witness :
    0 < wRecState.lastTSMS ∧ List.Chain' (fun a b => a ≤ b) wRecTimes ∧
    ((∀ x ∈ (runAdjust (startSession wRecState) wRecTimes).2, wRecState.lastTSMS < x) ∧
     (∀ t rest, wRecTimes = t :: rest →
       (runAdjust (startSession wRecState) wRecTimes).1.sessionOffsetMS =
         max 0 ((wRecState.lastTSMS + 1) - t))) :=
  ⟨by decide, by simp [wRecTimes, List.chain'_cons],
   adjust_session_rebase wRecState wRecTimes (by decide) (by simp [wRecTimes, List.chain'_cons])⟩

end Rec

namespace Rtmp

/-- C9: the claim is right and the code is wrong on the stream key.
`sanitizeStreamID` rejects the path components "." and "..", but
`sanitizeStreamKey` (whose result also becomes the stream name, hence a
directory name, when the admission service returns none) returns ".."
unchanged: evaluating both sanitizers at the failing input "..". -/
theorem sanitize_dotdot_divergence :
    sanitizeStreamKey ['.', '.'] = ['.', '.'] ∧ sanitizeStreamID ['.', '.'] = [] := by
  decide

end Rtmp

namespace Policy

/-- C10: a 200 response whose body is non-empty but not decodable JSON is
admitted — `Authorize` swallows the parse error and returns
DecisionAccept with empty StreamName and nil AllowRewind; and
DecisionReject (always with reason KEY_INVALID) arises only from an
unparsable auth URL, a request-construction error, a transport error, or
a non-200 status. -/
theorem authorize_reject_only_on_http_failure :
    (∀ p : HTTPPolicyCfg,
      (authorize p (.response 200 .invalidJson)).decision = .accept ∧
      (authorize p (.response 200 .invalidJson)).streamName = "" ∧
      (authorize p (.response 200 .invalidJson)).allowRewind = none) ∧
    ∀ (p : HTTPPolicyCfg) (o : AuthOutcome),
      (authorize p o).decision = .reject →
      (authorize p o).reason = "KEY_INVALID" ∧
      (o = .urlParseError ∨ o = .buildError ∨ o = .transportError ∨
        ∃ status body, o = .response status body ∧ status ≠ 200) := by
  constructor
  · intro p
    by_cases hskip : p.debugSkip = true ∨ p.authURL = ""
    · simp [authorize, hskip, acceptResult]
    · simp [authorize, hskip, parseAuthResponse]
  · intro p o h
    by_cases hskip : p.debugSkip = true ∨ p.authURL = ""
    · exfalso
      simp [authorize, hskip, acceptResult] at h
    · cases o with
      | urlParseError =>
        exact ⟨by simp [authorize, hskip, rejectWith], Or.inl rfl⟩
      | buildError =>
        exact ⟨by simp [authorize, hskip, rejectWith], Or.inr (Or.inl rfl)⟩
      | transportError =>
        exact ⟨by simp [authorize, hskip, rejectWith], Or.inr (Or.inr (Or.inl rfl))⟩
      | response status body =>
        by_cases hst : status = 200
        · exfalso
          subst hst
          cases hb : parseAuthResponse body with
          | error e => simp [authorize, hskip, hb] at h
          | ok a => simp [authorize, hskip, hb] at h
        · refine ⟨?_, Or.inr (Or.inr (Or.inr ⟨status, body, rfl, hst⟩))⟩
          simp [authorize, hskip, hst, rejectWith]

/-- C10 witness: `authorize_reject_only_on_http_failure` applied to a
concrete configuration, an invalid-JSON 200 response, and a transport
error. -/
theorem authorize_reject_only_on_http_failure_witness :
    ((authorize wAuthCfg (.response 200 .invalidJson)).decision = .accept ∧
     (authorize wAuthCfg (.response 200 .invalidJson)).streamName = "" ∧
     (authorize wAuthCfg (.response 200 .invalidJson)).allowRewind = none) ∧
    ((authorize wAuthCfg .transportError).reason = "KEY_INVALID" ∧
     (AuthOutcome.transportError = .urlParseError ∨
      AuthOutcome.transportError = .buildError ∨
      AuthOutcome.transportError = .transportError ∨
        ∃ status body, AuthOutcome.transportError = .response status body ∧ status ≠ 200)) :=
  ⟨authorize_reject_only_on_http_failure.1 wAuthCfg,
   authorize_reject_only_on_http_failure.2 wAuthCfg .transportError (by decide)⟩

end Policy

namespace Util

theorem specEnd_le (data : List Nat) : ∀ (c offset : Nat), offset ≤ specEnd data offset c := by
  intro c
  induction c with
  | zero =>
    intro offset
    simp [specEnd]
  | succ c ih =>
    intro offset
    have h := ih (offset + 2 + be16 (data.getD offset 0) (data.getD (offset + 1) 0))
    simp only [specEnd]
    omega

theorem readBlocks_spec (kind : String) (data : List Nat) :
    ∀ (c offset : Nat), offset ≤ data.length →
    (specEnd data offset c ≤ data.length →
      readBlocks kind data offset c = .ok (specBlocks data offset c, specEnd data offset c)) ∧
    (data.length < specEnd data offset c →
      ∃ e, readBlocks kind data offset c = .error e) := by
  intro c
  induction c with
  | zero =>
    intro offset hoff
    constructor
    · intro h
      simp [readBlocks, specBlocks, specEnd]
    · intro h
      exfalso
      simp only [specEnd] at h
      omega
  | succ c ih =>
    intro offset hoff
    by_cases h1 : data.length < offset + 2
    · have hge : offset + 2 ≤ specEnd data offset (c + 1) := by
        have h := specEnd_le data c (offset + 2 + be16 (data.getD offset 0) (data.getD (offset + 1) 0))
        simp only [specEnd]
        omega
      constructor
      · intro h
        exact absurd h (by omega)
      · intro h
        refine ⟨"invalid " ++ kind ++ " length", ?_⟩
        simp only [readBlocks]
        rw [if_pos h1]
    · by_cases h2 : data.length < offset + 2 + be16 (data.getD offset 0) (data.getD (offset + 1) 0)
      · have hge : offset + 2 + be16 (data.getD offset 0) (data.getD (offset + 1) 0) ≤
            specEnd data offset (c + 1) := by
          have h := specEnd_le data c
            (offset + 2 + be16 (data.getD offset 0) (data.getD (offset + 1) 0))
          simp only [specEnd]
          omega
        constructor
        · intro h
          exact absurd h (by omega)
        · intro h
          refine ⟨"invalid " ++ kind ++ " data", ?_⟩
          simp only [readBlocks]
          rw [if_neg h1, if_pos h2]
      · have hoff' : offset + 2 + be16 (data.getD offset 0) (data.getD (offset + 1) 0) ≤
            data.length := by omega
        obtain ⟨hok, herr⟩ :=
          ih (offset + 2 + be16 (data.getD offset 0) (data.getD (offset + 1) 0)) hoff'
        constructor
        · intro h
          have h' : specEnd data
              (offset + 2 + be16 (data.getD offset 0) (data.getD (offset + 1) 0)) c ≤
              data.length := by
            simpa only [specEnd] using h
          simp only [readBlocks, specBlocks, specEnd]
          rw [if_neg h1, if_neg h2, hok h']
        · intro h
          have h' : data.length < specEnd data
              (offset + 2 + be16 (data.getD offset 0) (data.getD (offset + 1) 0)) c := by
            simpa only [specEnd] using h
          obtain ⟨e, he⟩ := herr h'
          refine ⟨e, ?_⟩
          simp only [readBlocks]
          rw [if_neg h1, if_neg h2, he]

/-- C8: `ParseAVCDecoderConfig` succeeds exactly when byte 0 is 1, the
NALU length size decoded from byte 4 (low 2 bits + 1) is 4, and the
buffer is at least as long as the declared SPS/PPS counts and their
big-endian u16 lengths require (the input is otherwise unconstrained);
on success it returns profile, compatibility and level from bytes 1-3,
length_size 4, and the SPS and PPS payloads in order. -/
theorem parseAVC_characterization (data : List Nat) :
    ((∃ cfg, parseAVCDecoderConfig data = .ok cfg) ↔
      (data.getD 0 0 = 1 ∧ (data.getD 4 0 &&& 3) + 1 = 4 ∧ requiredLen data ≤ data.length)) ∧
    ∀ cfg, parseAVCDecoderConfig data = .ok cfg →
      cfg.profile = data.getD 1 0 ∧ cfg.compatibility = data.getD 2 0 ∧
      cfg.level = data.getD 3 0 ∧ cfg.lengthSize = 4 ∧
      cfg.sps = specBlocks data 6 (data.getD 5 0 &&& 31) ∧
      cfg.pps = specBlocks data (spsEndOffset data + 1) (data.getD (spsEndOffset data) 0) := by
  have h6le : 6 ≤ spsEndOffset data := specEnd_le data (data.getD 5 0 &&& 31) 6
  have hs1le : spsEndOffset data + 1 ≤ requiredLen data :=
    specEnd_le data (data.getD (spsEndOffset data) 0) (spsEndOffset data + 1)
  by_cases hlen : data.length < 7
  · have hp : parseAVCDecoderConfig data = .error "avc config too short" := by
      simp only [parseAVCDecoderConfig]
      rw [if_pos hlen]
    refine ⟨⟨?_, ?_⟩, ?_⟩
    · rintro ⟨cfg, hcfg⟩
      rw [hp] at hcfg
      cases hcfg
    · rintro ⟨-, -, h3⟩
      exact absurd h3 (by omega)
    · intro cfg hcfg
      rw [hp] at hcfg
      cases hcfg
  · by_cases hver : data.getD 0 0 ≠ 1
    · have hp : parseAVCDecoderConfig data = .error "avc config version not 1" := by
        simp only [parseAVCDecoderConfig]
        rw [if_neg hlen, if_pos hver]
      refine ⟨⟨?_, ?_⟩, ?_⟩
      · rintro ⟨cfg, hcfg⟩
        rw [hp] at hcfg
        cases hcfg
      · rintro ⟨h1', -, -⟩
        exact absurd h1' hver
      · intro cfg hcfg
        rw [hp] at hcfg
        cases hcfg
    · have hver' : data.getD 0 0 = 1 := not_not.mp hver
      by_cases hsize : (data.getD 4 0 &&& 3) + 1 ≠ 4
      · have hp : parseAVCDecoderConfig data = .error "unsupported nalu length size" := by
          simp only [parseAVCDecoderConfig]
          rw [if_neg hlen, if_neg hver, if_pos hsize]
        refine ⟨⟨?_, ?_⟩, ?_⟩
        · rintro ⟨cfg, hcfg⟩
          rw [hp] at hcfg
          cases hcfg
        · rintro ⟨-, h2', -⟩
          exact absurd h2' hsize
        · intro cfg hcfg
          rw [hp] at hcfg
          cases hcfg
      · have hsize' : (data.getD 4 0 &&& 3) + 1 = 4 := not_not.mp hsize
        obtain ⟨hok₁, herr₁⟩ := readBlocks_spec "sps" data (data.getD 5 0 &&& 31) 6 (by omega)
        have hfold₁ : specEnd data 6 (data.getD 5 0 &&& 31) = spsEndOffset data := rfl
        rw [hfold₁] at hok₁ herr₁
        by_cases hsps : spsEndOffset data ≤ data.length
        · have hrb₁ := hok₁ hsps
          by_cases hppc : data.length < spsEndOffset data + 1
          · have hp : parseAVCDecoderConfig data = .error "invalid pps count" := by
              simp only [parseAVCDecoderConfig]
              rw [if_neg hlen, if_neg hver, if_neg hsize]
              simp only [hrb₁]
              rw [if_pos hppc]
            refine ⟨⟨?_, ?_⟩, ?_⟩
            · rintro ⟨cfg, hcfg⟩
              rw [hp] at hcfg
              cases hcfg
            · rintro ⟨-, -, h3⟩
              exact absurd h3 (by omega)
            · intro cfg hcfg
              rw [hp] at hcfg
              cases hcfg
          · obtain ⟨hok₂, herr₂⟩ := readBlocks_spec "pps" data (data.getD (spsEndOffset data) 0)
              (spsEndOffset data + 1) (by omega)
            have hfold₂ : specEnd data (spsEndOffset data + 1) (data.getD (spsEndOffset data) 0) =
                requiredLen data := rfl
            rw [hfold₂] at hok₂ herr₂
            by_cases hreq : requiredLen data ≤ data.length
            · have hrb₂ := hok₂ hreq
              have hp : parseAVCDecoderConfig data =
                  .ok { profile := data.getD 1 0, compatibility := data.getD 2 0,
                        level := data.getD 3 0, lengthSize := (data.getD 4 0 &&& 3) + 1,
                        sps := specBlocks data 6 (data.getD 5 0 &&& 31),
                        pps := specBlocks data (spsEndOffset data + 1)
                          (data.getD (spsEndOffset data) 0) } := by
                simp only [parseAVCDecoderConfig]
                rw [if_neg hlen, if_neg hver, if_neg hsize]
                simp only [hrb₁]
                rw [if_neg hppc]
                simp only [hrb₂]
              refine ⟨⟨fun _ => ⟨hver', hsize', hreq⟩, fun _ => ⟨_, hp⟩⟩, ?_⟩
              intro cfg hcfg
              rw [hp] at hcfg
              injection hcfg with heq
              subst heq
              exact ⟨rfl, rfl, rfl, hsize', rfl, rfl⟩
            · obtain ⟨e, he⟩ := herr₂ (by omega)
              have hp : parseAVCDecoderConfig data = .error e := by
                simp only [parseAVCDecoderConfig]
                rw [if_neg hlen, if_neg hver, if_neg hsize]
                simp only [hrb₁]
                rw [if_neg hppc]
                simp only [he]
              refine ⟨⟨?_, ?_⟩, ?_⟩
              · rintro ⟨cfg, hcfg⟩
                rw [hp] at hcfg
                cases hcfg
              · rintro ⟨-, -, h3⟩
                exact absurd h3 hreq
              · intro cfg hcfg
                rw [hp] at hcfg
                cases hcfg
        · obtain ⟨e, he⟩ := herr₁ (by omega)
          have hp : parseAVCDecoderConfig data = .error e := by
            simp only [parseAVCDecoderConfig]
            rw [if_neg hlen, if_neg hver, if_neg hsize]
            simp only [he]
          refine ⟨⟨?_, ?_⟩, ?_⟩
          · rintro ⟨cfg, hcfg⟩
            rw [hp] at hcfg
            cases hcfg
          · rintro ⟨-, -, h3⟩
            exact absurd h3 (by omega)
          · intro cfg hcfg
            rw [hp] at hcfg
            cases hcfg

/-- C8 witness: `parseAVC_characterization` applied to the concrete
record `wAvcData`, whose parse is `wAvcCfg`. -/
theorem parseAVC_characterization_witness :
    wAvcCfg.profile = wAvcData.getD 1 0 ∧ wAvcCfg.compatibility = wAvcData.getD 2 0 ∧
    wAvcCfg.level = wAvcData.getD 3 0 ∧ wAvcCfg.lengthSize = 4 ∧
    wAvcCfg.sps = specBlocks wAvcData 6 (wAvcData.getD 5 0 &&& 31) ∧
    wAvcCfg.pps = specBlocks wAvcData (spsEndOffset wAvcData + 1)
      (wAvcData.getD (spsEndOffset wAvcData) 0) :=
  (parseAVC_characterization wAvcData).2 wAvcCfg (by rfl)

end Util

namespace Hls

theorem getD_snoc_length (l : List Segment) (a d : Segment) :
    (l ++ [a]).getD l.length d = a := by
  induction l with
  | nil => rfl
  | cons x t ih =>
    rw [List.cons_append]
    rw [show (x :: t).length = t.length + 1 from rfl]
    rw [List.getD_cons_succ]
    exact ih

theorem updateAt_snoc (f : Segment → Segment) (l : List Segment) (a : Segment) :
    updateAt f (l ++ [a]) l.length = l ++ [f a] := by
  induction l with
  | nil => rfl
  | cons x t ih => simp [updateAt, ih]

theorem parseLine_headerTag (st : ParseState) (s : String) (h : st.expectURI = false) :
    parseLine st (Line.headerTag s) = st := by
  simp [parseLine, h]

theorem parseLine_mediaSeq (st : ParseState) (n : Nat) (h : st.expectURI = false) :
    parseLine st (Line.mediaSeq n) = { st with hasMediaSeq := true, nextSeq := n } := by
  simp [parseLine, h]

theorem parseLine_disc (st : ParseState) (h : st.expectURI = false) :
    parseLine st Line.disc = { st with pendingDiscontinuity := true } := by
  simp [parseLine, h]

theorem parseLine_extinf (st : ParseState) (d : ℚ) (h : st.expectURI = false) :
    parseLine st (Line.extinf d) = { st with pendingDuration := d, expectURI := true } := by
  simp [parseLine, h]

theorem targetIdx_create (st : ParseState)
    (hci : st.currentIdx = none ∨ ∃ k, st.currentIdx = some k ∧
      (st.segments.getD k (emptySegment 0 false)).complete = true) :
    targetIdx st = createSegment st := by
  rcases hci with h | ⟨k, hk, hc⟩
  · simp [targetIdx, h]
  · simp only [targetIdx, hk]
    rw [if_pos hc]

theorem targetIdx_existing (st : ParseState) (k : Nat) (hk : st.currentIdx = some k)
    (hc : (st.segments.getD k (emptySegment 0 false)).complete = false) :
    targetIdx st = (st, k) := by
  simp only [targetIdx, hk]
  rw [if_neg (by rw [hc]; simp)]

theorem parseLine_part_create (st : ParseState) (d : ℚ) (u : String)
    (h : st.expectURI = false) (hu : ¬ u = "")
    (hci : st.currentIdx = none ∨ ∃ k, st.currentIdx = some k ∧
      (st.segments.getD k (emptySegment 0 false)).complete = true) :
    parseLine st (Line.partLine d u) =
      { st with
        segments := st.segments ++
          [{ seq := st.nextSeq, uri := "", duration := 0,
             parts := [{ uri := u, duration := d }],
             discontinuity := st.pendingDiscontinuity, complete := false, creationTimeMS := 0 }],
        nextSeq := st.nextSeq + 1, pendingDiscontinuity := false,
        currentIdx := some st.segments.length } := by
  simp only [parseLine, h, Bool.false_eq_true, if_false, if_neg hu, targetIdx_create st hci,
    createSegment]
  simp [updateAt_snoc, emptySegment]

theorem parseLine_part_existing (done : List Segment) (cur : Segment) (st : ParseState)
    (d : ℚ) (u : String) (h : st.expectURI = false) (hu : ¬ u = "")
    (hseg : st.segments = done ++ [cur]) (hci : st.currentIdx = some done.length)
    (hcur : cur.complete = false) :
    parseLine st (Line.partLine d u) =
      { st with
        segments := done ++ [{ cur with parts := cur.parts ++ [{ uri := u, duration := d }] }] } := by
  have hg : (st.segments.getD done.length (emptySegment 0 false)).complete = false := by
    rw [hseg, getD_snoc_length]
    exact hcur
  simp only [parseLine, h, Bool.false_eq_true, if_false, if_neg hu,
    targetIdx_existing st done.length hci hg]
  simp [hseg, updateAt_snoc, hci]

theorem parseLine_uri_create (st : ParseState) (u : String)
    (h : st.expectURI = true)
    (hci : st.currentIdx = none ∨ ∃ k, st.currentIdx = some k ∧
      (st.segments.getD k (emptySegment 0 false)).complete = true) :
    parseLine st (Line.uriLine u) =
      { st with
        segments := st.segments ++
          [{ seq := st.nextSeq, uri := u, duration := st.pendingDuration, parts := [],
             discontinuity := st.pendingDiscontinuity, complete := true, creationTimeMS := 0 }],
        nextSeq := st.nextSeq + 1, pendingDiscontinuity := false,
        currentIdx := some st.segments.length, expectURI := false } := by
  simp only [parseLine, h, if_true, targetIdx_create st hci, createSegment]
  simp [updateAt_snoc, emptySegment]

theorem parseLine_uri_existing (done : List Segment) (cur : Segment) (st : ParseState)
    (u : String) (h : st.expectURI = true)
    (hseg : st.segments = done ++ [cur]) (hci : st.currentIdx = some done.length)
    (hcur : cur.complete = false) :
    parseLine st (Line.uriLine u) =
      { st with
        segments := done ++
          [{ cur with uri := u, duration := st.pendingDuration, complete := true }],
        expectURI := false } := by
  have hg : (st.segments.getD done.length (emptySegment 0 false)).complete = false := by
    rw [hseg, getD_snoc_length]
    exact hcur
  simp only [parseLine, h, if_true, targetIdx_existing st done.length hci hg]
  simp [hseg, updateAt_snoc, hci]

end Hls

namespace Hls

theorem foldl_parts (done : List Segment) : ∀ (ps : List Part) (cur : Segment) (st : ParseState),
    st.expectURI = false →
    st.segments = done ++ [cur] →
    st.currentIdx = some done.length →
    cur.complete = false →
    ps.all (fun pt => pt.uri != "") = true →
    List.foldl parseLine st (ps.map (fun pt => Line.partLine pt.duration pt.uri)) =
      { st with segments := done ++ [{ cur with parts := cur.parts ++ ps }] } := by
  intro ps
  induction ps with
  | nil =>
    intro cur st h hseg hci hcur hall
    simp only [List.map_nil, List.foldl_nil, List.append_nil]
    rw [← hseg]
  | cons pt ps ih =>
    intro cur st h hseg hci hcur hall
    simp only [List.all_cons, Bool.and_eq_true, bne_iff_ne, ne_eq] at hall
    obtain ⟨hpt, hps⟩ := hall
    rw [List.map_cons, List.foldl_cons,
      parseLine_part_existing done cur st pt.duration pt.uri h hpt hseg hci hcur]
    rw [ih { cur with parts := cur.parts ++ [{ uri := pt.uri, duration := pt.duration }] }
      { st with segments :=
          done ++ [{ cur with parts := cur.parts ++ [{ uri := pt.uri, duration := pt.duration }] }] }
      h rfl hci hcur hps]
    simp [List.append_assoc]

theorem foldl_extinf_uri_create (st : ParseState) (d : ℚ) (u : String)
    (h : st.expectURI = false)
    (hci : st.currentIdx = none ∨ ∃ k, st.currentIdx = some k ∧
      (st.segments.getD k (emptySegment 0 false)).complete = true) :
    List.foldl parseLine st [Line.extinf d, Line.uriLine u] =
      { st with
        segments := st.segments ++
          [{ seq := st.nextSeq, uri := u, duration := d, parts := [],
             discontinuity := st.pendingDiscontinuity, complete := true, creationTimeMS := 0 }],
        nextSeq := st.nextSeq + 1, pendingDiscontinuity := false,
        currentIdx := some st.segments.length, expectURI := false,
        pendingDuration := d } := by
  rw [List.foldl_cons, List.foldl_cons, List.foldl_nil, parseLine_extinf st d h]
  rw [parseLine_uri_create { st with pendingDuration := d, expectURI := true } u rfl hci]

theorem foldl_partsBlock (st : ParseState) (pt : Part) (ps : List Part)
    (h : st.expectURI = false) (hpt : ¬ pt.uri = "")
    (hps : (ps.all fun q => q.uri != "") = true)
    (hci : st.currentIdx = none ∨ ∃ k, st.currentIdx = some k ∧
      (st.segments.getD k (emptySegment 0 false)).complete = true) :
    List.foldl parseLine st ((pt :: ps).map (fun q => Line.partLine q.duration q.uri)) =
      { st with
        segments := st.segments ++
          [{ seq := st.nextSeq, uri := "", duration := 0, parts := pt :: ps,
             discontinuity := st.pendingDiscontinuity, complete := false, creationTimeMS := 0 }],
        nextSeq := st.nextSeq + 1, pendingDiscontinuity := false,
        currentIdx := some st.segments.length } := by
  rw [List.map_cons, List.foldl_cons, parseLine_part_create st pt.duration pt.uri h hpt hci]
  rw [foldl_parts st.segments ps
    { seq := st.nextSeq, uri := "", duration := 0,
      parts := [{ uri := pt.uri, duration := pt.duration }],
      discontinuity := st.pendingDiscontinuity, complete := false, creationTimeMS := 0 }
    { st with
      segments := st.segments ++
        [{ seq := st.nextSeq, uri := "", duration := 0,
           parts := [{ uri := pt.uri, duration := pt.duration }],
           discontinuity := st.pendingDiscontinuity, complete := false, creationTimeMS := 0 }],
      nextSeq := st.nextSeq + 1, pendingDiscontinuity := false,
      currentIdx := some st.segments.length }
    h rfl rfl rfl hps]
  simp

theorem foldl_extinf_uri_existing (st : ParseState) (done : List Segment) (cur : Segment)
    (d : ℚ) (u : String) (h : st.expectURI = false)
    (hseg : st.segments = done ++ [cur]) (hci : st.currentIdx = some done.length)
    (hcur : cur.complete = false) :
    List.foldl parseLine st [Line.extinf d, Line.uriLine u] =
      { st with
        segments := done ++ [{ cur with uri := u, duration := d, complete := true }],
        expectURI := false, pendingDuration := d } := by
  rw [List.foldl_cons, List.foldl_cons, List.foldl_nil, parseLine_extinf st d h]
  rw [parseLine_uri_existing done cur { st with pendingDuration := d, expectURI := true }
    u rfl hseg hci hcur]

theorem foldl_parts_complete (st : ParseState) (pt : Part) (ps : List Part) (d : ℚ) (u : String)
    (h : st.expectURI = false) (hpt : ¬ pt.uri = "")
    (hps : (ps.all fun q => q.uri != "") = true)
    (hci : st.currentIdx = none ∨ ∃ k, st.currentIdx = some k ∧
      (st.segments.getD k (emptySegment 0 false)).complete = true) :
    List.foldl parseLine st
      ((pt :: ps).map (fun q => Line.partLine q.duration q.uri) ++
        [Line.extinf d, Line.uriLine u]) =
      { st with
        segments := st.segments ++
          [{ seq := st.nextSeq, uri := u, duration := d, parts := pt :: ps,
             discontinuity := st.pendingDiscontinuity, complete := true, creationTimeMS := 0 }],
        nextSeq := st.nextSeq + 1, pendingDiscontinuity := false,
        currentIdx := some st.segments.length, expectURI := false,
        pendingDuration := d } := by
  rw [List.foldl_append, foldl_partsBlock st pt ps h hpt hps hci]
  rw [foldl_extinf_uri_existing
    { st with
      segments := st.segments ++
        [{ seq := st.nextSeq, uri := "", duration := 0, parts := pt :: ps,
           discontinuity := st.pendingDiscontinuity, complete := false, creationTimeMS := 0 }],
      nextSeq := st.nextSeq + 1, pendingDiscontinuity := false,
      currentIdx := some st.segments.length }
    st.segments
    { seq := st.nextSeq, uri := "", duration := 0, parts := pt :: ps,
      discontinuity := st.pendingDiscontinuity, complete := false, creationTimeMS := 0 }
    d u h rfl rfl rfl]

theorem foldl_renderSegment (seg : Segment) (st : ParseState)
    (h : st.expectURI = false) (hpd : st.pendingDiscontinuity = false)
    (hci : st.currentIdx = none ∨ ∃ k, st.currentIdx = some k ∧
      (st.segments.getD k (emptySegment 0 false)).complete = true)
    (hgood : goodSeg seg = true) :
    List.foldl parseLine st (renderSegment true seg) =
      if seg.complete then
        { st with
          segments := st.segments ++ [parsedOf st.nextSeq seg],
          nextSeq := st.nextSeq + 1, currentIdx := some st.segments.length,
          pendingDiscontinuity := false, pendingDuration := seg.duration }
      else
        { st with
          segments := st.segments ++ [parsedOf st.nextSeq seg],
          nextSeq := st.nextSeq + 1, currentIdx := some st.segments.length,
          pendingDiscontinuity := false } := by
  unfold goodSeg at hgood
  rw [Bool.and_eq_true] at hgood
  obtain ⟨hparts, hflag⟩ := hgood
  have hA : List.foldl parseLine st (if seg.discontinuity then [Line.disc] else []) =
      { st with pendingDiscontinuity := seg.discontinuity } := by
    cases hd : seg.discontinuity
    · simp only [Bool.false_eq_true, if_false, List.foldl_nil]
      rw [← hpd]
    · simp only [if_true, List.foldl_cons, List.foldl_nil, parseLine_disc st h]
  rw [renderSegment, List.append_assoc, List.foldl_append, hA]
  rcases hp : seg.parts with _ | ⟨pt, ps⟩
  · rcases hc : seg.complete
    · exfalso
      rw [hc, hp] at hflag
      simp at hflag
    · rw [hc] at hflag
      simp only [hp, List.map_nil, hc, if_true, List.nil_append]
      rw [foldl_extinf_uri_create { st with pendingDiscontinuity := seg.discontinuity }
        seg.duration seg.uri h hci]
      simp [parsedOf, hc, hp, h]
  · have hparts' := hparts
    rw [hp, List.all_cons, Bool.and_eq_true] at hparts'
    obtain ⟨hpt, hps⟩ := hparts'
    rw [bne_iff_ne, ne_eq] at hpt
    rcases hc : seg.complete
    · rw [hc, hp] at hflag
      simp only [Bool.false_eq_true, if_false, Bool.and_eq_true, beq_iff_eq] at hflag
      simp only [Bool.false_eq_true, if_false, List.append_nil, eq_self_iff_true, if_true]
      rw [foldl_partsBlock { st with pendingDiscontinuity := seg.discontinuity }
        pt ps h hpt hps hci]
      simp [parsedOf, hc, hp]
    · simp only [hc, if_true, eq_self_iff_true]
      rw [foldl_parts_complete { st with pendingDiscontinuity := seg.discontinuity }
        pt ps seg.duration seg.uri h hpt hps hci]
      simp [parsedOf, hc, hp, h]

theorem goodWindow_cons {s : Segment} {t : List Segment} (h : goodWindow (s :: t) = true) :
    goodSeg s = true ∧ (t = [] ∨ (s.complete = true ∧ goodWindow t = true)) := by
  cases t with
  | nil =>
    exact ⟨h, Or.inl rfl⟩
  | cons b t' =>
    have h' : (goodSeg s && s.complete && goodWindow (b :: t')) = true := h
    rw [Bool.and_eq_true, Bool.and_eq_true] at h'
    exact ⟨h'.1.1, Or.inr ⟨h'.1.2, h'.2⟩⟩

theorem foldl_window : ∀ (segs : List Segment) (st : ParseState),
    st.expectURI = false → st.pendingDiscontinuity = false →
    (st.currentIdx = none ∨ ∃ k, st.currentIdx = some k ∧
      (st.segments.getD k (emptySegment 0 false)).complete = true) →
    goodWindow segs = true →
    (List.foldl parseLine st ((segs.map (renderSegment true)).flatten)).segments =
        st.segments ++ parsedList st.nextSeq segs ∧
    (List.foldl parseLine st ((segs.map (renderSegment true)).flatten)).hasMediaSeq =
        st.hasMediaSeq := by
  intro segs
  induction segs with
  | nil =>
    intro st h hpd hci hgw
    simp [parsedList]
  | cons s t ih =>
    intro st h hpd hci hgw
    obtain ⟨hgs, hrest⟩ := goodWindow_cons hgw
    rw [List.map_cons, List.flatten_cons, List.foldl_append]
    rw [foldl_renderSegment s st h hpd hci hgs]
    rcases hrest with rfl | ⟨hcomp, hgt⟩
    · rcases hc : s.complete <;>
        simp [hc, parsedList]
    · simp only [hcomp, if_true]
      have hgetd : (((st.segments ++ [parsedOf st.nextSeq s]).getD st.segments.length
          (emptySegment 0 false))).complete = true := by
        rw [getD_snoc_length]
        simp [parsedOf, hcomp]
      have hih := ih
        { st with
          segments := st.segments ++ [parsedOf st.nextSeq s],
          nextSeq := st.nextSeq + 1, currentIdx := some st.segments.length,
          pendingDiscontinuity := false, pendingDuration := s.duration }
        h rfl (Or.inr ⟨st.segments.length, rfl, hgetd⟩) hgt
      refine ⟨?_, ?_⟩
      · rw [hih.1]
        simp [parsedList, List.append_assoc]
      · rw [hih.2]

theorem goodWindow_mem : ∀ {segs : List Segment}, goodWindow segs = true →
    ∀ s ∈ segs, goodSeg s = true := by
  intro segs
  induction segs with
  | nil =>
    intro _ s hs
    cases hs
  | cons a t ih =>
    intro h s hs
    obtain ⟨hga, hrest⟩ := goodWindow_cons h
    rcases List.mem_cons.1 hs with rfl | hs'
    · exact hga
    · rcases hrest with rfl | ⟨-, hgt⟩
      · cases hs'
      · exact ih hgt s hs'

theorem parsedList_map_core : ∀ (segs : List Segment) (n : Nat),
    seqsFrom n segs = true → (∀ s ∈ segs, goodSeg s = true) →
    (parsedList n segs).map Segment.core = segs.map Segment.core := by
  intro segs
  induction segs with
  | nil =>
    intro n _ _
    rfl
  | cons a t ih =>
    intro n hseq hall
    rw [seqsFrom, Bool.and_eq_true, beq_iff_eq] at hseq
    obtain ⟨ha, ht⟩ := hseq
    have hga := hall a (List.mem_cons_self a t)
    rw [parsedList, List.map_cons, List.map_cons,
      ih (n + 1) ht (fun s hs => hall s (List.mem_cons_of_mem _ hs))]
    rcases hc : a.complete
    · unfold goodSeg at hga
      rw [hc] at hga
      simp only [Bool.false_eq_true, if_false, Bool.and_eq_true, beq_iff_eq] at hga
      obtain ⟨-, ⟨huri, hdur⟩, -⟩ := hga
      simp [Segment.core, parsedOf, hc, ha, huri, hdur]
    · simp [Segment.core, parsedOf, hc, ha]

theorem parsedList_last_complete : ∀ (segs : List Segment) (n : Nat),
    ((parsedList n segs).getLast?).map Segment.complete =
      (segs.getLast?).map Segment.complete := by
  intro segs
  induction segs with
  | nil =>
    intro n
    rfl
  | cons a t ih =>
    intro n
    cases t with
    | nil =>
      rcases hc : a.complete <;> simp [parsedList, parsedOf, hc]
    | cons b t' =>
      have h1 : parsedList n (a :: b :: t') =
          parsedOf n a :: parsedOf (n + 1) b :: parsedList (n + 1 + 1) t' := rfl
      rw [h1, List.getLast?_cons_cons, List.getLast?_cons_cons]
      have h2 := ih (n + 1)
      rw [show parsedList (n + 1) (b :: t') =
        parsedOf (n + 1) b :: parsedList (n + 1 + 1) t' from rfl] at h2
      exact h2

/-- C2: the render/parse round-trip. For a manager-held window (partial
rendering enabled, consecutive sequence numbers, non-empty part and
segment URIs, only the last segment possibly pending — with no URI,
duration 0 and at least one part), parsing the rendered playlist with
the same drop_incomplete handling as load_from_file recovers the same
sequence numbers, discontinuity flags, part URIs and durations,
completion flags, and segment URIs and durations, up to dropping a
trailing incomplete segment when drop_incomplete = true. -/
theorem render_load_roundTrip (p : PlaylistManager) (dropIncomplete : Bool)
    (hep : p.cfg.partEnabled = true)
    (hgw : goodWindow p.segments = true)
    (hseq : seqsFrom (headSeq p.segments) p.segments = true) :
    (parsePlaylist (render p) dropIncomplete).1.map Segment.core =
      (expectedWindow p.segments dropIncomplete).map Segment.core := by
  have hfold : (render p).foldl parseLine initParseState =
      List.foldl parseLine
        { segments := [], pendingDiscontinuity := false, currentIdx := none,
          hasMediaSeq := true, nextSeq := headSeq p.segments, expectURI := false,
          pendingDuration := 0 }
        ((p.segments.map (renderSegment true)).flatten) := by
    simp only [render, renderHeader, hep, eq_self_iff_true, if_true]
    rfl
  obtain ⟨hsegf, hmsf⟩ := foldl_window p.segments
    { segments := [], pendingDiscontinuity := false, currentIdx := none,
      hasMediaSeq := true, nextSeq := headSeq p.segments, expectURI := false,
      pendingDuration := 0 }
    rfl rfl (Or.inl rfl) hgw
  rw [List.nil_append] at hsegf
  have hcore : (parsedList (headSeq p.segments) p.segments).map Segment.core =
      p.segments.map Segment.core :=
    parsedList_map_core p.segments (headSeq p.segments) hseq (goodWindow_mem hgw)
  simp only [parsePlaylist]
  rw [hfold, hsegf, hmsf]
  rw [if_neg (by simp)]
  rcases dropIncomplete
  · simp only [Bool.false_eq_true, if_false, expectedWindow]
    exact hcore
  · simp only [if_true, expectedWindow]
    cases hlast : p.segments.getLast? with
    | none =>
      have hnil : p.segments = [] := List.getLast?_eq_none_iff.1 hlast
      rw [hnil]
      simp [parsedList]
    | some s =>
      have hpl := parsedList_last_complete p.segments (headSeq p.segments)
      rw [hlast] at hpl
      cases hplast : (parsedList (headSeq p.segments) p.segments).getLast? with
      | none =>
        rw [hplast] at hpl
        cases hpl
      | some s' =>
        rw [hplast] at hpl
        have hcc : s'.complete = s.complete := by
          simpa using hpl
        simp only [hplast, hlast]
        rcases hc : s.complete
        · rw [hcc, hc]
          simp only [Bool.false_eq_true, if_false]
          rw [List.map_dropLast, hcore, ← List.map_dropLast]
        · rw [hcc, hc]
          simp only [if_true]
          exact hcore

/-- C2 witness: `render_load_roundTrip` on a concrete two-segment window
(one complete segment with two parts, one pending segment) with
drop_incomplete = true. -/
theorem render_load_roundTrip_witness :
    wRenderPM.cfg.partEnabled = true ∧ goodWindow wRenderPM.segments = true ∧
    seqsFrom (headSeq wRenderPM.segments) wRenderPM.segments = true ∧
    (parsePlaylist (render wRenderPM) true).1.map Segment.core =
      (expectedWindow wRenderPM.segments true).map Segment.core :=
  ⟨rfl, by decide, by decide,
   render_load_roundTrip wRenderPM true rfl (by decide) (by decide)⟩

/-- No line emitted for a single segment is a #EXT-X-MEDIA-SEQUENCE line. -/
theorem renderSegment_no_mediaSeq (pe : Bool) (seg : Segment) :
    ∀ l ∈ renderSegment pe seg, isMediaSeqLine l = false := by
  intro l hl
  simp only [renderSegment, List.mem_append] at hl
  rcases hl with (h1 | h2) | h3
  · by_cases hd : seg.discontinuity = true
    · rw [if_pos hd] at h1
      simp only [List.mem_singleton] at h1
      subst h1
      rfl
    · rw [if_neg hd] at h1
      simp at h1
  · by_cases hp : pe = true
    · rw [if_pos hp] at h2
      simp only [List.mem_map] at h2
      obtain ⟨pt, _, rfl⟩ := h2
      rfl
    · rw [if_neg hp] at h2
      simp at h2
  · by_cases hc : seg.complete = true
    · rw [if_pos hc] at h3
      simp only [List.mem_cons, List.mem_singleton, List.not_mem_nil, or_false] at h3
      rcases h3 with h3 | h3
      · subst h3; rfl
      · subst h3; rfl
    · rw [if_neg hc] at h3
      simp at h3

/-- Every line emitted for an incomplete segment is the discontinuity
marker or a #EXT-X-PART line. -/
theorem renderSegment_incomplete_mem (pe : Bool) (seg : Segment)
    (hc : seg.complete = false) :
    ∀ l ∈ renderSegment pe seg, l = Line.disc ∨ isPartLine l = true := by
  intro l hl
  simp only [renderSegment, List.mem_append] at hl
  rcases hl with (h1 | h2) | h3
  · left
    by_cases hd : seg.discontinuity = true
    · rw [if_pos hd] at h1
      simpa using h1
    · rw [if_neg hd] at h1
      simp at h1
  · right
    by_cases hp : pe = true
    · rw [if_pos hp] at h2
      simp only [List.mem_map] at h2
      obtain ⟨pt, _, rfl⟩ := h2
      rfl
    · rw [if_neg hp] at h2
      simp at h2
  · rw [if_neg (by simp [hc])] at h3
    simp at h3

/-- C5 counterexample: a pending (incomplete) segment carrying the
discontinuity flag renders an #EXT-X-DISCONTINUITY line, so pending
segments do not emit #EXT-X-PART lines only. -/
theorem render_pending_claim_cex :
    cexPendingSeg.complete = false ∧
    Line.disc ∈ renderSegment true cexPendingSeg ∧
    isPartLine Line.disc = false := by
  decide

/-- C5 (amended): Render emits exactly one #EXT-X-MEDIA-SEQUENCE line,
valued at the seq of the first held segment (0 when empty); a segment's
rendering ends with an #EXTINF line followed by its URI line iff the
segment is complete; and an incomplete (pending) segment emits only its
optional #EXT-X-DISCONTINUITY marker and — when partial rendering is
enabled — one #EXT-X-PART line per part. -/
theorem render_structure (p : PlaylistManager) :
    (render p).filter isMediaSeqLine = [Line.mediaSeq (headSeq p.segments)] ∧
    (∀ seg ∈ p.segments,
      (seg.complete = true ↔
        ∃ pre, renderSegment p.cfg.partEnabled seg =
          pre ++ [Line.extinf seg.duration, Line.uriLine seg.uri])) ∧
    (∀ seg ∈ p.segments, seg.complete = false →
      (∀ l ∈ renderSegment p.cfg.partEnabled seg,
          l = Line.disc ∨ isPartLine l = true) ∧
      (p.cfg.partEnabled = true →
        ∀ pt ∈ seg.parts,
          Line.partLine pt.duration pt.uri ∈ renderSegment p.cfg.partEnabled seg)) := by
  refine ⟨?_, ?_, ?_⟩
  · have hH : (renderHeader p.cfg).filter isMediaSeqLine = [] := by
      by_cases hp : p.cfg.partEnabled = true <;>
        simp [renderHeader, hp, isMediaSeqLine]
    have hF : ((p.segments.map (renderSegment p.cfg.partEnabled)).flatten).filter
        isMediaSeqLine = [] := by
      rw [List.filter_eq_nil_iff]
      intro a ha
      rw [List.mem_flatten] at ha
      obtain ⟨L, hL, haL⟩ := ha
      rw [List.mem_map] at hL
      obtain ⟨seg, _, rfl⟩ := hL
      simp [renderSegment_no_mediaSeq _ _ a haL]
    rw [render, List.filter_append, List.filter_append, hH, hF]
    simp [isMediaSeqLine]
  · intro seg _
    constructor
    · intro hc
      refine ⟨(if seg.discontinuity then [Line.disc] else []) ++
          (if p.cfg.partEnabled then
            seg.parts.map (fun pt => Line.partLine pt.duration pt.uri) else []), ?_⟩
      rw [renderSegment, if_pos hc]
    · rintro ⟨pre, hpre⟩
      cases hcb : seg.complete with
      | true => rfl
      | false =>
        exfalso
        have hmem : Line.uriLine seg.uri ∈ renderSegment p.cfg.partEnabled seg := by
          rw [hpre]
          simp
        rcases renderSegment_incomplete_mem _ _ hcb _ hmem with h | h
        · cases h
        · cases h
  · intro seg _ hc
    refine ⟨renderSegment_incomplete_mem _ _ hc, ?_⟩
    intro hp pt hpt
    rw [renderSegment]
    refine List.mem_append_left _ (List.mem_append_right _ ?_)
    rw [if_pos hp]
    exact List.mem_map_of_mem _ hpt

/-- C5 witness: the amended structure theorem instantiated at the
concrete two-segment playlist: its rendering carries exactly the one
media-sequence line valued 7. -/
theorem render_structure_witness :
    (render wRenderPM).filter isMediaSeqLine =
      [Line.mediaSeq (headSeq wRenderPM.segments)] :=
  (render_structure wRenderPM).1
